import Mathlib

/-!
Verification of the result-collection module of a stochastic-trajectory
solver (`qutip/solver/result.py`).

The module has three layers:
* `Result` — a per-trajectory recorder: an ordered list of state
  "processors" (expectation-value storers, state-retention storers and
  user-registered extras) run once per recorded sample;
* `MultiTrajResult` — the retaining aggregator, which keeps every
  finished trajectory and recomputes derived statistics on demand;
* `MultiTrajResultAveraged` — the streaming aggregator, which keeps only
  running sums (states, final states, observable sums and sums of
  squares), a count, and the collapse-event lists.

Modelling conventions:
* exact arithmetic over `ℚ` replaces floating point; `Real.sqrt` models
  `np.sqrt`;
* a quantum state (ket) and a density matrix are both modelled as `ℚ`;
  the only genuinely opaque operation, `Qobj.proj` (promotion of a pure
  state to a density matrix), is an arbitrary parameter `proj : ℚ → ℚ`
  of every definition that uses it, so nothing is assumed about it;
* Python calls that can raise are embedded in `Option`/`Except`; the
  streaming `add` returns `Except` whose error value carries the
  aggregator state at the moment the exception escapes, so that partial
  mutation of the accumulators is observable;
* NumPy elementwise addition of 1-D arrays is `np_add`, which follows
  broadcasting: equal lengths add pointwise, a length-1 array broadcasts,
  anything else is an error (`None`);
* `np.mean`/`np.std` over axis 0 of a stacked array are modelled
  column-wise (`np_stack_mean`, `np_stack_std`); `np.std` is the
  population standard deviation, the square root of the mean of squared
  deviations.
-/

/-- `np.mean` of a 1-D array: sum divided by length. -/
def np_mean (xs : List ℚ) : ℚ := xs.sum / (xs.length : ℚ)

/-- `np.var` of a 1-D array (population form): mean of squared deviations. -/
def np_var (xs : List ℚ) : ℚ :=
  (xs.map (fun x => (x - np_mean xs) ^ 2)).sum / (xs.length : ℚ)

/-- `np.std` of a 1-D array: square root of the population variance. -/
noncomputable def np_std (xs : List ℚ) : ℝ := Real.sqrt ((np_var xs : ℚ) : ℝ)

/-- NumPy elementwise addition of two 1-D arrays, with broadcasting: equal
lengths add pointwise, a length-1 operand broadcasts against the other,
any other length combination raises (`none`). -/
def np_add (a b : List ℚ) : Option (List ℚ) :=
  if a.length = b.length then some (List.zipWith (· + ·) a b)
  else if a.length = 1 then some (b.map (fun x => a.headI + x))
  else if b.length = 1 then some (a.map (fun x => x + b.headI))
  else none

/-- Column `j` of a list of rows (`rows[i][j]` for each `i`). -/
def column (rows : List (List ℚ)) (j : ℕ) : List ℚ :=
  rows.map (fun r => r.getD j 0)

/-- `np.mean(np.stack(rows), axis=0)`: fails on an empty stack or on rows
of unequal length, otherwise the column-wise mean. -/
def np_stack_mean (rows : List (List ℚ)) : Option (List ℚ) :=
  match rows with
  | [] => none
  | r :: rs =>
    if rs.all (fun x => x.length = r.length) then
      some ((List.range r.length).map (fun j => np_mean (column rows j)))
    else none

/-- `np.std(np.stack(rows), axis=0)`: fails on an empty stack or on rows
of unequal length, otherwise the column-wise population standard
deviation. -/
noncomputable def np_stack_std (rows : List (List ℚ)) : Option (List ℝ) :=
  match rows with
  | [] => none
  | r :: rs =>
    if rs.all (fun x => x.length = r.length) then
      some ((List.range r.length).map (fun j => np_std (column rows j)))
    else none

/-- Python list slicing `l[:n]` with an `int` bound: a nonnegative bound
takes that many elements from the front, a negative bound counts from the
end, both clamped to the list. -/
def pySlice (n : ℤ) (l : List α) : List α :=
  if 0 ≤ n then l.take n.toNat else l.take ((l.length : ℤ) + n).toNat

/-- A finished trajectory record, as handed to an aggregator: the fields
of a `Result` that the aggregators read. States (kets) are modelled as
`ℚ`; `expect` holds one value sequence per observable key (keys are the
positions `0, 1, ...`); `collapse` is the list of (time, channel) jump
events. -/
structure Traj where
  times : List ℚ
  states : List ℚ
  final_state : Option ℚ
  expect : List (List ℚ)
  collapse : List (ℚ × ℕ)
  deriving DecidableEq, Repr

/-- Run `f` over a list, stopping at the first failure (a Python loop in
which each step may raise). -/
def mapO (f : α → Option β) : List α → Option (List β)
  | [] => some []
  | a :: as =>
    match f a with
    | none => none
    | some b =>
      match mapO f as with
      | none => none
      | some bs => some (b :: bs)

/-- The retaining aggregator `MultiTrajResult`: keeps every trajectory.
`to_dm` is the density-promotion policy flag (always set by the
constructor). -/
structure MultiTrajResult where
  trajectories : List Traj
  to_dm : Bool
  num_c_ops : ℕ
  deriving DecidableEq, Repr

namespace MultiTrajResult

/-- `MultiTrajResult.__init__`. -/
def init (num_c_ops : ℕ) : MultiTrajResult :=
  { trajectories := [], to_dm := true, num_c_ops := num_c_ops }

/-- `MultiTrajResult.add`: append the finished trajectory. -/
def add (m : MultiTrajResult) (tr : Traj) : MultiTrajResult :=
  { m with trajectories := m.trajectories ++ [tr] }

/-- `MultiTrajResult.average_states`: seed with the (promoted) states of
the first trajectory, zip-accumulate the remaining trajectories, divide
by the trajectory count.  Raises (`none`) when no trajectory was added. -/
def average_states (proj : ℚ → ℚ) (m : MultiTrajResult) : Option (List ℚ) :=
  match m.trajectories with
  | [] => none
  | t0 :: rest =>
    let finals0 := if m.to_dm then t0.states.map proj else t0.states
    let finals := rest.foldl
      (fun finals tr => List.zipWith
        (fun final state => (if m.to_dm then proj state else state) + final)
        finals tr.states)
      finals0
    some (finals.map (fun final => final / (m.trajectories.length : ℚ)))

/-- `MultiTrajResult.average_final_state`: sum of the (promoted) final
states over the trajectory count.  Raises (`none`) when there are no
trajectories (division by zero) or when some trajectory has no final
state (`None.proj()`). -/
def average_final_state (proj : ℚ → ℚ) (m : MultiTrajResult) : Option ℚ :=
  match m.trajectories with
  | [] => none
  | _ :: _ =>
    match mapO (fun tr => tr.final_state) m.trajectories with
    | none => none
    | some fs =>
      let vals := if m.to_dm then fs.map proj else fs
      some (vals.foldl (· + ·) 0 / (m.trajectories.length : ℚ))

/-- `MultiTrajResult.steady_state`: sum of the entries of
`average_states` divided by the number of time points. -/
def steady_state (proj : ℚ → ℚ) (m : MultiTrajResult) : Option ℚ :=
  match m.average_states proj with
  | none => none
  | some avg => if avg.isEmpty then none else some (avg.sum / (avg.length : ℚ))

/-- `MultiTrajResult.average_expect`: for each key of the first
trajectory, `np.mean` over the stacked per-trajectory value sequences. -/
def average_expect (m : MultiTrajResult) : Option (List (List ℚ)) :=
  match m.trajectories with
  | [] => none
  | t0 :: _ =>
    mapO (fun k =>
      match mapO (fun tr => tr.expect[k]?) m.trajectories with
      | none => none
      | some rows => np_stack_mean rows)
      (List.range t0.expect.length)

/-- `MultiTrajResult.std_expect`: for each key of the first trajectory,
`np.std` over the stacked per-trajectory value sequences. -/
noncomputable def std_expect (m : MultiTrajResult) : Option (List (List ℝ)) :=
  match m.trajectories with
  | [] => none
  | t0 :: _ =>
    mapO (fun k =>
      match mapO (fun tr => tr.expect[k]?) m.trajectories with
      | none => none
      | some rows => np_stack_std rows)
      (List.range t0.expect.length)

/-- `MultiTrajResult.expect_traj_avg(ntraj)`: as written in the source it
applies `np.std` (not `np.mean`) to the first `ntraj` trajectories. -/
noncomputable def expect_traj_avg (m : MultiTrajResult) (ntraj : ℤ) :
    Option (List (List ℝ)) :=
  match m.trajectories with
  | [] => none
  | t0 :: _ =>
    mapO (fun k =>
      match mapO (fun tr => tr.expect[k]?) (pySlice ntraj m.trajectories) with
      | none => none
      | some rows => np_stack_std rows)
      (List.range t0.expect.length)

/-- `MultiTrajResult.expect_traj_std(ntraj)`: `np.std` over the first
`ntraj` trajectories. -/
noncomputable def expect_traj_std (m : MultiTrajResult) (ntraj : ℤ) :
    Option (List (List ℝ)) :=
  match m.trajectories with
  | [] => none
  | t0 :: _ =>
    mapO (fun k =>
      match mapO (fun tr => tr.expect[k]?) (pySlice ntraj m.trajectories) with
      | none => none
      | some rows => np_stack_std rows)
      (List.range t0.expect.length)

end MultiTrajResult

/-- The streaming aggregator `MultiTrajResultAveraged`: running sums
only.  `template` is the retained first trajectory (`self.trajectories`);
the four sum fields are `None` until the first `add`. -/
structure MultiTrajResultAveraged where
  template : Option Traj
  sum_states : Option (List ℚ)
  sum_last : Option ℚ
  sum_expect : Option (List (List ℚ))
  sum2_expect : Option (List (List ℚ))
  to_dm : Bool
  num_c_ops : ℕ
  num : ℕ
  collapse : List (List (ℚ × ℕ))
  deriving DecidableEq, Repr

/-- The update `[self._sum_expect[i] + np.array(one_traj.expect[i]) for i
in range(len(self._sum_expect))]`: pairs each accumulator row with the
trajectory's row at the same index; a missing trajectory row is an
`IndexError`, a non-broadcastable length mismatch is a NumPy error.  The
whole list is built before it is assigned, so it fails or succeeds
atomically. -/
def addExpectSums : List (List ℚ) → List (List ℚ) → Option (List (List ℚ))
  | [], _ => some []
  | _ :: _, [] => none
  | a :: as, e :: es =>
    match np_add a e with
    | none => none
    | some h =>
      match addExpectSums as es with
      | none => none
      | some t => some (h :: t)

/-- The corresponding sum-of-squares update, adding
`np.array(one_traj.expect[i])**2`. -/
def addSqSums : List (List ℚ) → List (List ℚ) → Option (List (List ℚ))
  | [], _ => some []
  | _ :: _, [] => none
  | a :: as, e :: es =>
    match np_add a (e.map (fun x => x ^ 2)) with
    | none => none
    | some h =>
      match addSqSums as es with
      | none => none
      | some t => some (h :: t)

namespace MultiTrajResultAveraged

/-- `MultiTrajResultAveraged.__init__`. -/
def init (num_c_ops : ℕ) : MultiTrajResultAveraged :=
  { template := none, sum_states := none, sum_last := none,
    sum_expect := none, sum2_expect := none, to_dm := true,
    num_c_ops := num_c_ops, num := 0, collapse := [] }

/-- The tail of `add` shared by all non-raising paths: append the
collapse list and bump the count. -/
def finishAdd (m : MultiTrajResultAveraged) (tr : Traj) :
    MultiTrajResultAveraged :=
  { m with collapse := m.collapse ++ [tr.collapse], num := m.num + 1 }

/-- The observable-sum part of a non-first `add`.  Mirrors the source:
the sums are only touched when `self._sum_expect` is truthy; the new sum
list is assigned before the sum-of-squares list is computed, so an
exception in the second comprehension leaves the first assignment in
place (the error value carries the partially updated aggregator). -/
def addExpectPart (m : MultiTrajResultAveraged) (tr : Traj) :
    Except MultiTrajResultAveraged MultiTrajResultAveraged :=
  match m.sum_expect with
  | none => .ok (m.finishAdd tr)
  | some s =>
    if s.isEmpty then .ok (m.finishAdd tr)
    else
      match addExpectSums s tr.expect with
      | none => .error m
      | some s' =>
        let m1 := { m with sum_expect := some s' }
        match m.sum2_expect with
        | none => .error m1
        | some s2 =>
          match addSqSums s2 tr.expect with
          | none => .error m1
          | some s2' => .ok (({ m1 with sum2_expect := some s2' }).finishAdd tr)

/-- `MultiTrajResultAveraged.add`.  The first call seeds all running sums
from the trajectory; later calls fold the trajectory in: the state sum is
zip-accumulated (silently truncating to the shorter list), the final
state sum is accumulated (raising when the accumulator exists but the new
trajectory has no final state), then the observable sums.  An `error`
result carries the aggregator state at the moment the exception escapes. -/
def add (proj : ℚ → ℚ) (m : MultiTrajResultAveraged) (tr : Traj) :
    Except MultiTrajResultAveraged MultiTrajResultAveraged :=
  if m.num = 0 then
    .ok { m with
      template := some tr,
      sum_states := some
        (if m.to_dm && !tr.states.isEmpty then tr.states.map proj
         else tr.states),
      sum_last :=
        (if m.to_dm && tr.final_state.isSome then tr.final_state.map proj
         else tr.final_state),
      sum_expect := some tr.expect,
      sum2_expect := some (tr.expect.map (fun e => e.map (fun x => x ^ 2))),
      collapse := m.collapse ++ [tr.collapse],
      num := 1 }
  else
    let m1 := { m with
      sum_states := m.sum_states.map (fun l =>
        if l.isEmpty then l
        else List.zipWith
          (fun accu state => (if m.to_dm then proj state else state) + accu)
          l tr.states) }
    match m.sum_last with
    | some acc =>
      match tr.final_state with
      | none => .error m1
      | some f =>
        addExpectPart
          { m1 with sum_last := some (acc + (if m.to_dm then proj f else f)) }
          tr
    | none => addExpectPart m1 tr

/-- Fold a list of trajectories into the aggregator, stopping at the
first exception. -/
def addAll (proj : ℚ → ℚ) :
    MultiTrajResultAveraged → List Traj →
      Except MultiTrajResultAveraged MultiTrajResultAveraged
  | m, [] => .ok m
  | m, tr :: trs =>
    match m.add proj tr with
    | .error e => .error e
    | .ok m' => addAll proj m' trs

/-- `MultiTrajResultAveraged.average_states`: each state sum divided by
the count; raises (`none`) before the first `add`. -/
def average_states (m : MultiTrajResultAveraged) : Option (List ℚ) :=
  m.sum_states.map (fun l => l.map (fun final => final / (m.num : ℚ)))

/-- `MultiTrajResultAveraged.average_final_state`: the final-state sum
divided by the count; raises (`none`) when there is no final-state sum. -/
def average_final_state (m : MultiTrajResultAveraged) : Option ℚ :=
  m.sum_last.map (fun s => s / (m.num : ℚ))

/-- `MultiTrajResultAveraged.steady_state`: as written in the source it
sums `self._sum_states` (the *unaveraged* state sums) and divides by the
number of time points. -/
def steady_state (m : MultiTrajResultAveraged) : Option ℚ :=
  match m.sum_states with
  | none => none
  | some avg =>
    if avg.isEmpty then none else some (avg.sum / (avg.length : ℚ))

/-- `MultiTrajResultAveraged.average_expect`: each observable sum divided
elementwise by the count. -/
def average_expect (m : MultiTrajResultAveraged) : Option (List (List ℚ)) :=
  m.sum_expect.map (fun s => s.map (fun v => v.map (fun x => x / (m.num : ℚ))))

/-- `MultiTrajResultAveraged.std_expect`:
`sqrt(sum2 / num - (sum / num)**2)` elementwise.  In every reachable
aggregator the sum and sum-of-squares rows have equal shapes, so the
elementwise pairing is a plain zip. -/
noncomputable def std_expect (m : MultiTrajResultAveraged) :
    Option (List (List ℝ)) :=
  match m.sum_expect, m.sum2_expect with
  | some s, some s2 =>
    some ((List.range s.length).map (fun i =>
      List.zipWith
        (fun x2 x =>
          Real.sqrt (((x2 / (m.num : ℚ) - (x / (m.num : ℚ)) ^ 2 : ℚ)) : ℝ))
        (s2.getD i []) (s.getD i [])))
  | _, _ => none

end MultiTrajResultAveraged

/-- An observable spec (`e_op`) as supplied by the user: an operator
(`Qobj`, evaluated as a time-independent expectation value), a
time-dependent operator (`QobjEvo`, whose `.expect` method is used), an
arbitrary callable `f(t, state)`, or a value of any other, unsupported,
type.  The evaluation behaviour of the operator kinds is opaque to this
module, so each carries its evaluation function. -/
inductive EOp where
  | qobj (ev : ℚ → ℚ)
  | qobjEvo (ev : ℚ → ℚ → ℚ)
  | callable (f : ℚ → ℚ → ℚ)
  | unsupported

/-- `EOp.unsupported` recogniser. -/
def EOp.isUnsupported : EOp → Prop
  | .unsupported => True
  | _ => False

instance : DecidablePred EOp.isUnsupported := fun e => by
  cases e <;> simp [EOp.isUnsupported] <;> infer_instance

/-- `Result._e_op_func`: resolve a spec into an evaluator `f(t, state)`;
a spec that is neither operator-like nor callable raises `TypeError`
("unsupported type"). -/
def e_op_func (e : EOp) : Except String (ℚ → ℚ → ℚ) :=
  match e with
  | .qobj ev => .ok (fun _ state => ev state)
  | .qobjEvo ev => .ok ev
  | .callable f => .ok f
  | .unsupported => .error "unsupported type"

/-- Run `f` over a list, stopping at the first raised error (a Python
loop in which each step may raise). -/
def mapE (f : α → Except String β) : List α → Except String (List β)
  | [] => .ok []
  | a :: as =>
    match f a with
    | .error e => .error e
    | .ok b =>
      match mapE f as with
      | .error e => .error e
      | .ok bs => .ok (b :: bs)

/-- A registered state processor of a `Result`:
* `store k f` — `ExpectOp._store` for observable key `k` with evaluator
  `f`: appends `f t state` to `e_data[k]`;
* `storeState` — `Result._store_state`: appends the state to `.states`;
* `storeFinal` — `Result._store_final_state`: overwrites `.final_state`;
* `ext i` — a processor registered by a sub-class or a user (a side
  effect outside the recorded fields; `i` is an identifier). -/
inductive Proc where
  | store (k : ℕ) (f : ℚ → ℚ → ℚ)
  | storeState
  | storeFinal
  | ext (i : ℕ)

/-- The mutable recorded data of a `Result`. -/
structure ResultState where
  times : List ℚ
  states : List ℚ
  final_state : Option ℚ
  e_data : List (List ℚ)

/-- The effect of one processor call `op(t, state)` on the recorded data. -/
def applyProc : Proc → ℚ → ℚ → ResultState → ResultState
  | .store k f, t, s, st =>
    { st with e_data := st.e_data.set k ((st.e_data.getD k []) ++ [f t s]) }
  | .storeState, _, s, st => { st with states := st.states ++ [s] }
  | .storeFinal, _, s, st => { st with final_state := some s }
  | .ext _, _, _, st => st

/-- An observable event of one `Result.add` call: a call of the state's
`copy` method, or a call of one registered processor. -/
inductive Ev where
  | copy
  | call (p : Proc)

/-- `for op in self._state_processors: op(t, state)` — run the processors
in order, returning the updated data and the trace of processor calls. -/
def runProcs : List Proc → ℚ → ℚ → ResultState → ResultState × List Ev
  | [], _, _, st => (st, [])
  | p :: ps, t, s, st =>
    let st1 := applyProc p t s st
    let r := runProcs ps t s st1
    (r.1, Ev.call p :: r.2)

/-- `Qobj.copy`: returns an equal, independently owned state. -/
def copyState (s : ℚ) : ℚ := s

/-- The per-trajectory recorder `Result`: the registered processors, the
OR-accumulated copy flag, and the recorded data. -/
structure Result where
  procs : List Proc
  require_copy : Bool
  st : ResultState

namespace Result

/-- `Result.add_processor`: append the processor and OR in its copy
requirement. -/
def add_processor (r : Result) (p : Proc) (requires_copy : Bool) : Result :=
  { r with procs := r.procs ++ [p],
           require_copy := r.require_copy || requires_copy }

/-- `Result.add(t, state)`: append the time, copy the state once if any
registered processor requires a copy, then run every processor in
registration order.  Returns the updated recorder and the event trace
(copy events and processor calls) of this one call. -/
def add (r : Result) (t s : ℚ) : Result × List Ev :=
  let st0 := { r.st with times := r.st.times ++ [t] }
  let pre : ℚ × List Ev :=
    if r.require_copy then (copyState s, [Ev.copy]) else (s, [])
  let run := runProcs r.procs t pre.1 st0
  ({ r with st := run.1 }, pre.2 ++ run.2)

/-- A recorder with registered processors `ps`, copy flag `b` and data
`st` (used to build recorders processor-by-processor). -/
def base (ps : List Proc) (b : Bool) (st : ResultState) : Result :=
  { procs := ps, require_copy := b, st := st }

/-- The empty recorded data with `n` observable channels. -/
def emptyState (n : ℕ) : ResultState :=
  { times := [], states := [], final_state := none,
    e_data := List.replicate n [] }

/-- `Result.__init__` (with `e_ops` supplied as a list, so the keys are
the positions): resolve each spec into an evaluator (raising on an
unsupported spec before anything else happens), register one storing
processor per observable, then register the state-retention processors
according to the options: `store_states` defaults to "no observables
bound", and a final-state processor is added when either states or the
final state are kept. -/
def init (e_ops : List EOp) (store_states : Option Bool)
    (store_final_state : Bool) : Except String Result :=
  match mapE e_op_func e_ops with
  | .error e => .error e
  | .ok fs =>
    let r0 := base [] false (emptyState fs.length)
    let r1 := (fs.enum).foldl
      (fun r kf => r.add_processor (.store kf.1 kf.2) false) r0
    let ss := store_states.getD e_ops.isEmpty
    let r2 := if ss then r1.add_processor .storeState true else r1
    let r3 := if ss || store_final_state then
        r2.add_processor .storeFinal true
      else r2
    .ok r3

end Result

/-! ### Concrete instances used by witnesses and counterexamples -/

/-- A concrete stand-in for `Qobj.proj` (the promotion of a pure state
to a density matrix): a nonlinear map, so that nothing accidentally
relies on linearity. -/
def projSq (x : ℚ) : ℚ := x ^ 2

/-- One-sample trajectory with a single state and no observables. -/
def trOne : Traj :=
  { times := [0], states := [1], final_state := none, expect := [],
    collapse := [] }

/-- The streaming aggregator after folding `trOne` twice. -/
def mAvgTwo : MultiTrajResultAveraged :=
  { template := some trOne, sum_states := some [2], sum_last := none,
    sum_expect := some [], sum2_expect := some [], to_dm := true,
    num_c_ops := 0, num := 2, collapse := [[], []] }

/-- Trajectory with observable values `[1, 2, 3]` and no states. -/
def trE1 : Traj :=
  { times := [0, 1, 2], states := [], final_state := none,
    expect := [[1, 2, 3]], collapse := [] }

/-- Trajectory with observable values `[3, 2, 1]` and no states. -/
def trE2 : Traj :=
  { times := [0, 1, 2], states := [], final_state := none,
    expect := [[3, 2, 1]], collapse := [] }

/-- The retaining aggregator holding `trE1` and `trE2`. -/
def mRetE : MultiTrajResult := ((MultiTrajResult.init 0).add trE1).add trE2

/-- Three-state, three-value trajectory (first trajectory of the
failed-`add` scenario). -/
def trC3a : Traj :=
  { times := [0, 1, 2], states := [1, 1, 1], final_state := none,
    expect := [[1, 2, 3]], collapse := [] }

/-- Two-state, two-value trajectory whose shapes disagree with
`trC3a`. -/
def trC3b : Traj :=
  { times := [0, 1], states := [2, 2], final_state := none,
    expect := [[1, 2]], collapse := [] }

/-- The streaming aggregator after adding `trC3a`. -/
def mC3 : MultiTrajResultAveraged :=
  { template := some trC3a, sum_states := some [1, 1, 1], sum_last := none,
    sum_expect := some [[1, 2, 3]], sum2_expect := some [[1, 4, 9]],
    to_dm := true, num_c_ops := 0, num := 1, collapse := [[]] }

/-- The aggregator state in which the failed `add` of `trC3b` leaves
`mC3`: the state sums have already been replaced by the zip-truncated
accumulation when the observable-length mismatch raises. -/
def mC3err : MultiTrajResultAveraged := { mC3 with sum_states := some [5, 5] }

/-! ### C1 / C2: divergences between the code and its own documentation -/

/-- C1: the claim says `expect_traj_avg(k)` returns, for every
observable key, the pointwise mean over the first `k` trajectories.  The
source applies `np.std` (not `np.mean`) to the first `k` trajectories,
contradicting its own docstring ("Averaged expectation values over
`ntraj` trajectories"): on trajectories with values `[1,2,3]` and
`[3,2,1]`, `expect_traj_avg(2)` returns `[1,0,1]` — the standard
deviation — while the mean (which `average_expect` does return) is
`[2,2,2]`. -/
theorem expect_traj_avg_returns_std :
    mRetE.expect_traj_avg 2 = some [[(1 : ℝ), 0, 1]] ∧
    mRetE.average_expect = some [[2, 2, 2]] ∧
    ([[(1 : ℝ), 0, 1]] : List (List ℝ)) ≠ [[2, 2, 2]] := by
  refine ⟨?_, ?_, ?_⟩
  · have h1 : np_var [1, 3] = 1 := by norm_num [np_var, np_mean]
    have h2 : np_var [2, 2] = 0 := by norm_num [np_var, np_mean]
    have h3 : np_var [3, 1] = 1 := by norm_num [np_var, np_mean]
    simp [mRetE, MultiTrajResult.expect_traj_avg, MultiTrajResult.add,
      MultiTrajResult.init, trE1, trE2, pySlice, mapO, np_stack_std, np_std,
      column, List.range_succ, h1, h2, h3]
  · norm_num [mRetE, MultiTrajResult.average_expect, MultiTrajResult.add,
      MultiTrajResult.init, trE1, trE2, mapO, np_stack_mean, np_mean, column,
      List.range_succ]
  · intro h
    have := List.head_eq_of_cons_eq h
    have := List.head_eq_of_cons_eq this
    norm_num at this

/-- C2: the claim says `steady_state` equals the sum of the entries of
`mean_states` divided by the number of time points in both realizations.
The retaining realization does exactly that, but the streaming
realization sums `self._sum_states` — the *unnormalized* state sums —
so it returns `num_traj` times the documented value: after adding the
single-state trajectory `trOne` twice, `mean_states` is `[1]` and the
documented value is `1` (the retaining realization returns it), but the
streaming realization returns `2`, contradicting its own docstring
("Average state of each time and trajectories"). -/
theorem steady_state_streaming_unnormalized :
    (((MultiTrajResult.init 0).add trOne).add trOne).steady_state projSq
        = some 1 ∧
    (MultiTrajResultAveraged.init 0).addAll projSq [trOne, trOne]
        = Except.ok mAvgTwo ∧
    mAvgTwo.average_states = some [1] ∧
    mAvgTwo.steady_state = some 2 ∧
    mAvgTwo.steady_state ≠ some (([(1 : ℚ)].sum) / (([(1 : ℚ)].length : ℕ) : ℚ)) := by
  refine ⟨?_, ?_, ?_, ?_, ?_⟩
  · norm_num [MultiTrajResult.steady_state, MultiTrajResult.average_states,
      MultiTrajResult.add, MultiTrajResult.init, trOne, projSq]
  · norm_num [MultiTrajResultAveraged.addAll, MultiTrajResultAveraged.add,
      MultiTrajResultAveraged.addExpectPart, MultiTrajResultAveraged.finishAdd,
      MultiTrajResultAveraged.init, trOne, mAvgTwo, projSq, List.isEmpty]
  · norm_num [MultiTrajResultAveraged.average_states, mAvgTwo]
  · norm_num [MultiTrajResultAveraged.steady_state, mAvgTwo]
  · norm_num [MultiTrajResultAveraged.steady_state, mAvgTwo]

/-! ### C3: a failed streaming `add` is not atomic -/

/-- C3 counterexample: the claim says a failed streaming `add` leaves the
accumulated state exactly as it was.  Adding `trC3b` (whose observable
array is shorter than the accumulators) to `mC3` raises while updating
the observable sums — but by then the state sums have already been
replaced by the zip-truncated accumulation, so the aggregator left
behind differs from the one before the call. -/
theorem add_failure_mutates_state_sums :
    (MultiTrajResultAveraged.init 0).add projSq trC3a = Except.ok mC3 ∧
    mC3.add projSq trC3b = Except.error mC3err ∧
    mC3err.sum_states ≠ mC3.sum_states := by
  refine ⟨?_, ?_, ?_⟩
  · norm_num [MultiTrajResultAveraged.add, MultiTrajResultAveraged.init,
      trC3a, mC3, projSq, List.isEmpty]
  · norm_num [MultiTrajResultAveraged.add,
      MultiTrajResultAveraged.addExpectPart, addExpectSums, np_add,
      trC3a, trC3b, mC3, mC3err, projSq, List.isEmpty]
  · simp [mC3, mC3err]

/-- Helper for the amended C3: an exception escaping the observable-sum
part of `add` never touches the count, the collapse collection or the
sum-of-squares accumulators. -/
theorem addExpectPart_error_preserves {m m' : MultiTrajResultAveraged}
    {tr : Traj} (h : m.addExpectPart tr = Except.error m') :
    m'.num = m.num ∧ m'.collapse = m.collapse ∧
      m'.sum2_expect = m.sum2_expect := by
  unfold MultiTrajResultAveraged.addExpectPart at h
  split at h
  · cases h
  · split at h
    · cases h
    · split at h
      · cases h
        exact ⟨rfl, rfl, rfl⟩
      · split at h
        · cases h
          exact ⟨rfl, rfl, rfl⟩
        · split at h
          · cases h
            exact ⟨rfl, rfl, rfl⟩
          · cases h

/-- C3 amended: a failed streaming `add` never modifies the trajectory
count, the collapse-event collection, or the sum-of-squares
accumulators (each running sum is assigned atomically), but the state
sums, the final-state sum and the observable sums may already have been
updated when the exception escapes. -/
theorem add_failure_partial_guarantees (proj : ℚ → ℚ)
    (m m' : MultiTrajResultAveraged) (tr : Traj)
    (h : m.add proj tr = Except.error m') :
    m'.num = m.num ∧ m'.collapse = m.collapse ∧
      m'.sum2_expect = m.sum2_expect := by
  unfold MultiTrajResultAveraged.add at h
  by_cases h0 : m.num = 0
  · simp [h0] at h
  · simp only [h0, if_false] at h
    cases hsl : m.sum_last with
    | none =>
      rw [hsl] at h
      dsimp only at h
      obtain ⟨a, b, c⟩ := addExpectPart_error_preserves h
      exact ⟨a, b, c⟩
    | some acc =>
      rw [hsl] at h
      cases hf : tr.final_state with
      | none =>
        rw [hf] at h
        dsimp only at h
        cases h
        exact ⟨rfl, rfl, rfl⟩
      | some f =>
        rw [hf] at h
        dsimp only at h
        obtain ⟨a, b, c⟩ := addExpectPart_error_preserves h
        exact ⟨a, b, c⟩

/-- Witness for the amended C3, at the concrete failed `add` of
`trC3b` into `mC3`. -/
theorem add_failure_partial_guarantees_witness :
    mC3err.num = mC3.num ∧ mC3err.collapse = mC3.collapse ∧
      mC3err.sum2_expect = mC3.sum2_expect :=
  add_failure_partial_guarantees projSq mC3 mC3err trC3b (by
    norm_num [MultiTrajResultAveraged.add,
      MultiTrajResultAveraged.addExpectPart, addExpectSums, np_add,
      trC3a, trC3b, mC3, mC3err, projSq, List.isEmpty])

/-! ### C8: shape mismatches -/

/-- First trajectory of the shape-mismatch scenario. -/
def trC8a : Traj :=
  { times := [0, 1, 2], states := [3, 3, 3], final_state := none,
    expect := [[1, 2, 3, 4]], collapse := [] }

/-- Second trajectory, shorter in both states and observable values. -/
def trC8b : Traj :=
  { times := [0, 1], states := [4, 4], final_state := none,
    expect := [[5, 6]], collapse := [] }

/-- The streaming aggregator after adding `trC8a`. -/
def mC8 : MultiTrajResultAveraged :=
  { template := some trC8a, sum_states := some [9, 9, 9], sum_last := none,
    sum_expect := some [[1, 2, 3, 4]], sum2_expect := some [[1, 4, 9, 16]],
    to_dm := true, num_c_ops := 0, num := 1, collapse := [[]] }

/-- The aggregator state the failed `add` of `trC8b` leaves behind:
state sums zip-truncated to the shorter trajectory. -/
def mC8err : MultiTrajResultAveraged := { mC8 with sum_states := some [25, 25] }

/-- C8 counterexample: the claim says that with mismatched shapes both
state and observable summation silently zip to the shorter sequence and
nothing raises, in both realizations.  In fact only the *state*
summation truncates: the observable summation raises — in the streaming
realization the `add` call itself errors on the mismatched arrays, and
in the retaining realization `average_expect` errors when it stacks the
mismatched rows. -/
theorem shape_mismatch_observables_raise :
    (MultiTrajResultAveraged.init 0).add projSq trC8a = Except.ok mC8 ∧
    mC8.add projSq trC8b = Except.error mC8err ∧
    (((MultiTrajResult.init 0).add trC8a).add trC8b).average_expect = none := by
  refine ⟨?_, ?_, ?_⟩
  · norm_num [MultiTrajResultAveraged.add, MultiTrajResultAveraged.init,
      trC8a, mC8, projSq, List.isEmpty]
  · norm_num [MultiTrajResultAveraged.add,
      MultiTrajResultAveraged.addExpectPart, addExpectSums, np_add,
      trC8a, trC8b, mC8, mC8err, projSq, List.isEmpty]
  · norm_num [MultiTrajResult.average_expect, MultiTrajResult.add,
      MultiTrajResult.init, trC8a, trC8b, mapO, np_stack_mean,
      List.range_succ]

/-- C8 amended: no shape validation is performed at `add` time in the
retaining realization or on the *state* sums of the streaming
realization — state summation zips to the shorter sequence, silently
truncating the excess.  Observable summation, however, raises on a
length mismatch (other than a broadcastable length-1 array) instead of
truncating: the streaming `add` errors after having already truncated
the state sums, and the retaining realization's `average_expect` errors
when it stacks the mismatched rows. -/
theorem zip_truncates_states_but_expect_raises (proj : ℚ → ℚ)
    (s1 s2 e1 e2 : List ℚ) (hs : s2.length ≤ s1.length)
    (hne : e1.length ≠ e2.length) (h1 : e1.length ≠ 1)
    (h2 : e2.length ≠ 1) :
    (∃ m1, (MultiTrajResultAveraged.init 0).add proj
        ⟨[], s1, none, [e1], []⟩ = Except.ok m1 ∧
      m1.sum_states = some (s1.map proj) ∧
      (∃ m2, m1.add proj ⟨[], s2, none, [e2], []⟩ = Except.error m2 ∧
        m2.sum_states = some (List.zipWith
          (fun accu state => proj state + accu) (s1.map proj) s2) ∧
        (List.zipWith (fun accu state => proj state + accu)
          (s1.map proj) s2).length = s2.length)) ∧
    (∃ l, (((MultiTrajResult.init 0).add ⟨[], s1, none, [e1], []⟩).add
        ⟨[], s2, none, [e2], []⟩).average_states proj = some l ∧
      l.length = s2.length) ∧
    (((MultiTrajResult.init 0).add ⟨[], s1, none, [e1], []⟩).add
        ⟨[], s2, none, [e2], []⟩).average_expect = none := by
  have hadd : np_add e1 e2 = none := by simp [np_add, hne, h1, h2]
  refine ⟨⟨{ template := some ⟨[], s1, none, [e1], []⟩,
             sum_states := some (s1.map proj), sum_last := none,
             sum_expect := some [e1],
             sum2_expect := some [e1.map (fun x => x ^ 2)],
             to_dm := true, num_c_ops := 0, num := 1,
             collapse := [[]] }, ?_, rfl,
          ⟨{ template := some ⟨[], s1, none, [e1], []⟩,
             sum_states := some (List.zipWith
               (fun accu state => proj state + accu) (s1.map proj) s2),
             sum_last := none,
             sum_expect := some [e1],
             sum2_expect := some [e1.map (fun x => x ^ 2)],
             to_dm := true, num_c_ops := 0, num := 1,
             collapse := [[]] }, ?_, rfl, ?_⟩⟩, ?_, ?_⟩
  · cases s1 <;>
      simp [MultiTrajResultAveraged.add, MultiTrajResultAveraged.init]
  · cases s1 <;>
      simp [MultiTrajResultAveraged.add,
        MultiTrajResultAveraged.addExpectPart, addExpectSums, hadd,
        List.isEmpty]
  · simp [List.length_zipWith, Nat.min_eq_right hs]
  · refine ⟨(List.zipWith (fun final state => proj state + final)
        (s1.map proj) s2).map (fun final => final / ((2 : ℕ) : ℚ)), ?_, ?_⟩
    · simp [MultiTrajResult.average_states, MultiTrajResult.add,
        MultiTrajResult.init]
    · simp [List.length_zipWith, Nat.min_eq_right hs]
  · simp [MultiTrajResult.average_expect, MultiTrajResult.add,
      MultiTrajResult.init, mapO, np_stack_mean, List.range_succ, hne,
      hne.symm]

/-- Witness for the amended C8, at the concrete mismatched trajectories
`trC8a`/`trC8b` shapes (states of lengths 3 and 2, observable arrays of
lengths 4 and 2). -/
theorem zip_truncates_states_witness :
    (([4, 4] : List ℚ).length ≤ ([3, 3, 3] : List ℚ).length ∧
      ([1, 2, 3, 4] : List ℚ).length ≠ ([5, 6] : List ℚ).length ∧
      ([1, 2, 3, 4] : List ℚ).length ≠ 1 ∧ ([5, 6] : List ℚ).length ≠ 1) ∧
    ((∃ m1, (MultiTrajResultAveraged.init 0).add projSq
        ⟨[], [3, 3, 3], none, [[1, 2, 3, 4]], []⟩ = Except.ok m1 ∧
      m1.sum_states = some ([3, 3, 3].map projSq) ∧
      (∃ m2, m1.add projSq ⟨[], [4, 4], none, [[5, 6]], []⟩
          = Except.error m2 ∧
        m2.sum_states = some (List.zipWith
          (fun accu state => projSq state + accu)
          ([3, 3, 3].map projSq) [4, 4]) ∧
        (List.zipWith (fun accu state => projSq state + accu)
          ([3, 3, 3].map projSq) [4, 4]).length = ([4, 4] : List ℚ).length)) ∧
    (∃ l, (((MultiTrajResult.init 0).add
        ⟨[], [3, 3, 3], none, [[1, 2, 3, 4]], []⟩).add
        ⟨[], [4, 4], none, [[5, 6]], []⟩).average_states projSq = some l ∧
      l.length = ([4, 4] : List ℚ).length) ∧
    (((MultiTrajResult.init 0).add
        ⟨[], [3, 3, 3], none, [[1, 2, 3, 4]], []⟩).add
        ⟨[], [4, 4], none, [[5, 6]], []⟩).average_expect = none) :=
  ⟨⟨by norm_num, by norm_num, by norm_num, by norm_num⟩,
    zip_truncates_states_but_expect_raises projSq [3, 3, 3] [4, 4]
      [1, 2, 3, 4] [5, 6] (by norm_num) (by norm_num) (by norm_num)
      (by norm_num)⟩

/-! ### C9: unsupported observable specs are rejected at bind time -/

/-- `mapE e_op_func` succeeds, with one evaluator per spec, exactly when
no spec is unsupported. -/
theorem mapE_eop_ok (l : List EOp) (h : ∀ op ∈ l, ¬ op.isUnsupported) :
    ∃ fs, mapE e_op_func l = Except.ok fs ∧ fs.length = l.length := by
  induction l with
  | nil => exact ⟨[], rfl, rfl⟩
  | cons a as ih =>
    obtain ⟨fs, hfs, hlen⟩ := ih (fun op hop => h op (List.mem_cons_of_mem a hop))
    have ha := h a (List.mem_cons_self a as)
    cases a with
    | unsupported => simp [EOp.isUnsupported] at ha
    | qobj ev =>
      exact ⟨(fun _ state => ev state) :: fs,
        by simp [mapE, e_op_func, hfs], by simp [hlen]⟩
    | qobjEvo ev =>
      exact ⟨ev :: fs, by simp [mapE, e_op_func, hfs], by simp [hlen]⟩
    | callable f =>
      exact ⟨f :: fs, by simp [mapE, e_op_func, hfs], by simp [hlen]⟩

/-- Prepending a supported spec does not change whether (or with what
message) `mapE e_op_func` raises. -/
theorem mapE_cons_ok_error (a : EOp) (g : ℚ → ℚ → ℚ)
    (hg : e_op_func a = Except.ok g) (as : List EOp) (msg : String) :
    mapE e_op_func (a :: as) = Except.error msg ↔
      mapE e_op_func as = Except.error msg := by
  simp only [mapE, hg]
  cases hm : mapE e_op_func as <;> simp

/-- `mapE e_op_func` raises exactly when some spec is unsupported, and
the error is always the `TypeError` message. -/
theorem mapE_eop_error (l : List EOp) : ∀ msg : String,
    mapE e_op_func l = Except.error msg ↔
      (msg = "unsupported type" ∧ ∃ op ∈ l, op.isUnsupported) := by
  induction l with
  | nil => intro msg; simp [mapE]
  | cons a as ih =>
    intro msg
    cases a with
    | unsupported =>
      simp [mapE, e_op_func, EOp.isUnsupported, eq_comm]
    | qobj ev =>
      rw [mapE_cons_ok_error (EOp.qobj ev) (fun _ state => ev state) rfl
        as msg, ih msg]
      simp [List.exists_mem_cons_iff, EOp.isUnsupported]
    | qobjEvo ev =>
      rw [mapE_cons_ok_error (EOp.qobjEvo ev) ev rfl as msg, ih msg]
      simp [List.exists_mem_cons_iff, EOp.isUnsupported]
    | callable f =>
      rw [mapE_cons_ok_error (EOp.callable f) f rfl as msg, ih msg]
      simp [List.exists_mem_cons_iff, EOp.isUnsupported]

/-- C9: constructing a recorder with an observable spec that is neither
operator-like nor callable raises the `TypeError` ("unsupported type")
during construction itself — no recorder value exists on which `add`
could be called — and specs that are operators, time-dependent operators
or callables never raise at bind time. -/
theorem init_rejects_unsupported_specs (e_ops : List EOp) (ss : Option Bool)
    (sf : Bool) :
    (Result.init e_ops ss sf = Except.error "unsupported type" ↔
      ∃ op ∈ e_ops, op.isUnsupported) ∧
    ((∀ op ∈ e_ops, ¬ op.isUnsupported) →
      ∃ r, Result.init e_ops ss sf = Except.ok r) := by
  constructor
  · unfold Result.init
    cases hm : mapE e_op_func e_ops with
    | error e =>
      obtain ⟨hmsg, hex⟩ := (mapE_eop_error e_ops e).mp hm
      subst hmsg
      simpa using hex
    | ok fs =>
      dsimp only
      constructor
      · intro h
        cases h
      · intro hex
        have := (mapE_eop_error e_ops "unsupported type").mpr ⟨rfl, hex⟩
        rw [this] at hm
        cases hm
  · intro h
    obtain ⟨fs, hfs, _⟩ := mapE_eop_ok e_ops h
    cases hini : Result.init e_ops ss sf with
    | ok r => exact ⟨r, rfl⟩
    | error e =>
      unfold Result.init at hini
      rw [hfs] at hini
      simp at hini

/-- Witness for C9: a single unsupported spec is rejected with the
`TypeError` message, and a callable spec is accepted. -/
theorem init_rejects_unsupported_witness :
    Result.init [EOp.unsupported] none false
        = Except.error "unsupported type" ∧
    ∃ r, Result.init [EOp.callable (fun t _ => t)] none false
        = Except.ok r :=
  ⟨(init_rejects_unsupported_specs [EOp.unsupported] none false).1.mpr
      ⟨EOp.unsupported, by simp, by simp [EOp.isUnsupported]⟩,
    (init_rejects_unsupported_specs [EOp.callable (fun t _ => t)] none
        false).2
      (by intro op hop; simp at hop; subst hop; simp [EOp.isUnsupported])⟩

/-! ### C7: the processor contract of `Result.add` -/

/-- Folding `add_processor` over a registration list appends the
processors in order and ORs the copy flags. -/
theorem foldl_add_processor (regs : List (Proc × Bool)) (r : Result) :
    (regs.foldl (fun r pb => r.add_processor pb.1 pb.2) r).procs
        = r.procs ++ regs.map (fun pb => pb.1) ∧
    (regs.foldl (fun r pb => r.add_processor pb.1 pb.2) r).require_copy
        = (r.require_copy || regs.any (fun pb => pb.2)) ∧
    (regs.foldl (fun r pb => r.add_processor pb.1 pb.2) r).st = r.st := by
  induction regs generalizing r with
  | nil => simp
  | cons pb rest ih =>
    obtain ⟨hp, hc, hst⟩ := ih (r.add_processor pb.1 pb.2)
    refine ⟨?_, ?_, ?_⟩
    · rw [List.foldl_cons, hp]
      simp [Result.add_processor]
    · rw [List.foldl_cons, hc]
      simp [Result.add_processor, Bool.or_assoc]
    · rw [List.foldl_cons, hst]
      simp [Result.add_processor]

/-- Running the processor loop calls each processor exactly once, in
list order. -/
theorem runProcs_trace (ps : List Proc) (t s : ℚ) (st : ResultState) :
    (runProcs ps t s st).2 = ps.map Ev.call := by
  induction ps generalizing st with
  | nil => rfl
  | cons p rest ih => simp [runProcs, ih]

/-! ### C10: the expectation lists stay parallel to the time list -/

/-- The recorded data has `n` observable channels and every channel has
one value per recorded time. -/
def e_data_parallel (n : ℕ) (st : ResultState) : Prop :=
  st.e_data.length = n ∧
  ∀ k < n, (st.e_data.getD k []).length = st.times.length

/-- A recorder whose processors are exactly the default ones: one
`ExpectOp._store` per observable key `0..n-1` (in key order), followed by
state-retention processors only. -/
def defaultProcs (n : ℕ) (r : Result) : Prop :=
  ∃ fs : List (ℚ → ℚ → ℚ), fs.length = n ∧
    ∃ tail : List Proc,
      (∀ p ∈ tail, p = Proc.storeState ∨ p = Proc.storeFinal) ∧
      r.procs = (fs.enum).map (fun kf => Proc.store kf.1 kf.2) ++ tail

/-- `mapE` preserves the length on success. -/
theorem mapE_ok_length {f : α → Except String β} :
    ∀ {l : List α} {bs : List β}, mapE f l = Except.ok bs →
      bs.length = l.length := by
  intro l
  induction l with
  | nil => intro bs h; cases h; rfl
  | cons a as ih =>
    intro bs h
    simp only [mapE] at h
    cases hfa : f a with
    | error e => rw [hfa] at h; cases h
    | ok b =>
      rw [hfa] at h
      cases hm : mapE f as with
      | error e => rw [hm] at h; cases h
      | ok cs =>
        rw [hm] at h
        cases h
        simp [ih hm]

/-- The processor loop never touches the recorded times. -/
theorem runProcs_fst_times (ps : List Proc) (t s : ℚ) (st : ResultState) :
    (runProcs ps t s st).1.times = st.times := by
  induction ps generalizing st with
  | nil => rfl
  | cons p rest ih => cases p <;> simp [runProcs, applyProc, ih]

/-- The processor loop never changes the number of observable channels. -/
theorem runProcs_e_data_length (ps : List Proc) (t s : ℚ) (st : ResultState) :
    (runProcs ps t s st).1.e_data.length = st.e_data.length := by
  induction ps generalizing st with
  | nil => rfl
  | cons p rest ih => cases p <;> simp [runProcs, applyProc, ih]

/-- Running a prefix then a suffix of processors composes. -/
theorem runProcs_fst_append (l1 l2 : List Proc) (t s : ℚ) (st : ResultState) :
    (runProcs (l1 ++ l2) t s st).1
      = (runProcs l2 t s (runProcs l1 t s st).1).1 := by
  induction l1 generalizing st with
  | nil => rfl
  | cons p rest ih => simp [runProcs, ih]

/-- State-retention processors leave the observable data untouched. -/
theorem runProcs_retention_e_data :
    ∀ (ps : List Proc) (t s : ℚ) (st : ResultState),
      (∀ p ∈ ps, p = Proc.storeState ∨ p = Proc.storeFinal) →
      (runProcs ps t s st).1.e_data = st.e_data
  | [], _, _, _, _ => rfl
  | p :: rest, t, s, st, h => by
    have hrest := runProcs_retention_e_data rest t s (applyProc p t s st)
      (fun q hq => h q (List.mem_cons_of_mem _ hq))
    dsimp only [runProcs]
    rw [hrest]
    rcases h p (List.mem_cons_self p rest) with hp | hp <;> subst hp <;> rfl

/-- `getD` after `set` at the written index. -/
theorem getD_set_lt (l : List α) (i : ℕ) (v d : α) (h : i < l.length) :
    (l.set i v).getD i d = v := by
  simp [List.getD_eq_getElem?_getD, List.getElem?_set_self',
    List.getElem?_eq_getElem h]

/-- `getD` after `set` at another index. -/
theorem getD_set_ne (l : List α) {i j : ℕ} (hij : i ≠ j) (v d : α) :
    (l.set i v).getD j d = l.getD j d := by
  simp [List.getD_eq_getElem?_getD, List.getElem?_set_ne hij]

/-- Effect of one contiguous block of storing processors (keys
`i, i+1, ...`): every targeted channel that exists gains exactly one
value, every other channel is unchanged. -/
theorem runProcs_store_block :
    ∀ (fs : List (ℚ → ℚ → ℚ)) (i : ℕ) (t s : ℚ) (st : ResultState) (k : ℕ),
      (((runProcs ((List.enumFrom i fs).map
          (fun kf => Proc.store kf.1 kf.2)) t s st).1.e_data.getD k []).length)
        = (st.e_data.getD k []).length
          + (if i ≤ k ∧ k < i + fs.length ∧ k < st.e_data.length then 1 else 0)
  | [], i, t, s, st, k => by
    simp [runProcs]
    omega
  | f :: fs, i, t, s, st, k => by
    rw [List.enumFrom_cons, List.map_cons]
    have hrec := runProcs_store_block fs (i + 1) t s
      (applyProc (Proc.store i f) t s st) k
    show ((runProcs _ t s (applyProc (Proc.store i f) t s st)).1.e_data.getD
        k []).length = _
    rw [hrec]
    simp only [applyProc]
    by_cases hki : k = i
    · subst hki
      by_cases hlt : k < st.e_data.length
      · rw [getD_set_lt _ _ _ _ hlt]
        simp only [List.length_set, List.length_append, List.length_cons,
          List.length_singleton, List.length_nil]
        split_ifs <;> omega
      · have h1 : (st.e_data.set k (st.e_data.getD k [] ++ [f t s])).getD k []
            = ([] : List ℚ) := by
          simp [List.getD_eq_getElem?_getD, List.getElem?_set_self',
            List.getElem?_eq_none (Nat.le_of_not_lt hlt)]
        have h2 : st.e_data.getD k [] = ([] : List ℚ) := by
          simp [List.getD_eq_getElem?_getD,
            List.getElem?_eq_none (Nat.le_of_not_lt hlt)]
        rw [h1]
        simp only [h2, List.length_set, List.length_nil, List.length_cons]
        split_ifs <;> omega
    · rw [getD_set_ne _ (Ne.symm hki)]
      simp only [List.length_set]
      have hcond : (i + 1 ≤ k ∧ k < i + 1 + fs.length ∧ k < st.e_data.length)
          ↔ (i ≤ k ∧ k < i + (f :: fs).length ∧ k < st.e_data.length) := by
        simp only [List.length_cons]
        omega
      rw [if_congr hcond rfl rfl]

/-- One `add` on a default-processor recorder: the time list and every
observable channel grow by exactly one entry, the invariant is
preserved, and the processor registration is untouched. -/
theorem add_default_step (n : ℕ) (r : Result) (hd : defaultProcs n r)
    (t s : ℚ) (hinv : e_data_parallel n r.st) :
    (r.add t s).1.st.times.length = r.st.times.length + 1 ∧
    (∀ k < n, ((r.add t s).1.st.e_data.getD k []).length
      = (r.st.e_data.getD k []).length + 1) ∧
    e_data_parallel n (r.add t s).1.st ∧
    (r.add t s).1.procs = r.procs := by
  obtain ⟨fs, hfs, tail, htail, hprocs⟩ := hd
  obtain ⟨hlen, hpar⟩ := hinv
  set st0 : ResultState := { r.st with times := r.st.times ++ [t] } with hst0
  set s' : ℚ := if r.require_copy then copyState s else s with hs'
  have hadd1 : (r.add t s).1 = { r with st := (runProcs r.procs t s' st0).1 } := by
    rw [Result.add]
    by_cases hc : r.require_copy <;> simp [hc, hst0, hs']
  have hdata : ∀ k, ((runProcs r.procs t s' st0).1.e_data.getD k []).length
      = (st0.e_data.getD k []).length
        + (if k < fs.length ∧ k < st0.e_data.length then 1 else 0) := by
    intro k
    rw [hprocs, runProcs_fst_append,
      runProcs_retention_e_data tail t s' _ htail]
    have hblock := runProcs_store_block fs 0 t s' st0 k
    rw [show List.enumFrom 0 fs = fs.enum from rfl] at hblock
    rw [hblock]
    congr 1
    have : (0 ≤ k ∧ k < 0 + fs.length ∧ k < st0.e_data.length)
        ↔ (k < fs.length ∧ k < st0.e_data.length) := by omega
    rw [if_congr this rfl rfl]
  have htimes : (runProcs r.procs t s' st0).1.times = r.st.times ++ [t] := by
    rw [runProcs_fst_times]
  have hedl : (runProcs r.procs t s' st0).1.e_data.length = n := by
    rw [runProcs_e_data_length]
    exact hlen
  have hst0data : st0.e_data = r.st.e_data := rfl
  refine ⟨?_, ?_, ⟨?_, ?_⟩, ?_⟩
  · rw [hadd1]
    simp [htimes]
  · intro k hk
    rw [hadd1]
    dsimp only
    rw [hdata k, hst0data]
    have : (k < fs.length ∧ k < st0.e_data.length) := by
      constructor
      · omega
      · rw [show st0.e_data = r.st.e_data from rfl, hlen]
        omega
    rw [if_pos this]
  · rw [hadd1]
    exact hedl
  · intro k hk
    rw [hadd1]
    dsimp only
    rw [hdata k, hst0data, htimes]
    have hcond : (k < fs.length ∧ k < st0.e_data.length) := by
      constructor
      · omega
      · rw [show st0.e_data = r.st.e_data from rfl, hlen]
        omega
    rw [if_pos hcond, hpar k hk]
    simp
  · rw [hadd1]

/-- Folding samples over a default-processor recorder preserves both the
registration shape and the parallel-lists invariant. -/
theorem fold_add_preserves (n : ℕ) :
    ∀ (samples : List (ℚ × ℚ)) (r : Result), defaultProcs n r →
      e_data_parallel n r.st →
      defaultProcs n (samples.foldl (fun r ts => (r.add ts.1 ts.2).1) r) ∧
      e_data_parallel n
        (samples.foldl (fun r ts => (r.add ts.1 ts.2).1) r).st
  | [], r, hd, hinv => ⟨hd, hinv⟩
  | ts :: rest, r, hd, hinv => by
    obtain ⟨_, _, hinv', hprocs⟩ := add_default_step n r hd ts.1 ts.2 hinv
    have hd' : defaultProcs n (r.add ts.1 ts.2).1 := by
      obtain ⟨fs, hfs, tail, htail, hp⟩ := hd
      exact ⟨fs, hfs, tail, htail, by rw [hprocs, hp]⟩
    simpa [List.foldl_cons] using
      fold_add_preserves n rest (r.add ts.1 ts.2).1 hd' hinv'

/-- A successfully constructed recorder has the default processors and
empty data. -/
theorem init_default_shape (e_ops : List EOp) (ss : Option Bool) (sf : Bool)
    (r : Result) (h : Result.init e_ops ss sf = Except.ok r) :
    defaultProcs e_ops.length r ∧ r.st = Result.emptyState e_ops.length := by
  unfold Result.init at h
  cases hm : mapE e_op_func e_ops with
  | error e => rw [hm] at h; cases h
  | ok fs =>
    rw [hm] at h
    dsimp only at h
    have hfs : fs.length = e_ops.length := mapE_ok_length hm
    set r0 := Result.base [] false (Result.emptyState fs.length) with hr0
    set r1 := (fs.enum).foldl
      (fun r kf => r.add_processor (.store kf.1 kf.2) false) r0 with hr1
    have h1 : r1.procs = (fs.enum).map (fun kf => Proc.store kf.1 kf.2)
        ∧ r1.st = r0.st := by
      rw [hr1, show ((fs.enum).foldl
          (fun r kf => r.add_processor (.store kf.1 kf.2) false) r0)
        = (((fs.enum).map
            (fun kf => (Proc.store kf.1 kf.2, false))).foldl
          (fun r pb => r.add_processor pb.1 pb.2) r0) from by
          rw [List.foldl_map]]
      obtain ⟨hp, _, hst⟩ := foldl_add_processor
        ((fs.enum).map (fun kf => (Proc.store kf.1 kf.2, false))) r0
      refine ⟨?_, hst⟩
      rw [hp]
      simp [hr0, Result.base, List.map_map, Function.comp]
    obtain ⟨h1p, h1st⟩ := h1
    have hshape : defaultProcs e_ops.length r ∧ r.st = r0.st := by
      by_cases hss : ss.getD e_ops.isEmpty
      · rw [if_pos hss, if_pos (by simp [hss])] at h
        injection h with h
        subst h
        refine ⟨⟨fs, hfs, [Proc.storeState, Proc.storeFinal], ?_, ?_⟩, ?_⟩
        · intro p hp
          rcases List.mem_cons.mp hp with hp | hp
          · exact Or.inl hp
          · exact Or.inr (by simpa using hp)
        · simp [Result.add_processor, h1p]
        · simp [Result.add_processor, h1st]
      · rw [if_neg hss] at h
        by_cases hsf : sf
        · rw [if_pos (by simp [hss, hsf])] at h
          injection h with h
          subst h
          refine ⟨⟨fs, hfs, [Proc.storeFinal], ?_, ?_⟩, ?_⟩
          · intro p hp
            exact Or.inr (by simpa using hp)
          · simp [Result.add_processor, h1p]
          · simp [Result.add_processor, h1st]
        · rw [if_neg (by simp [hss, hsf])] at h
          injection h with h
          subst h
          exact ⟨⟨fs, hfs, [], by simp, by simp [h1p]⟩, h1st⟩
    refine ⟨hshape.1, ?_⟩
    rw [hshape.2, hr0]
    simp [Result.base, hfs]

/-- The empty recorder data satisfies the invariant. -/
theorem emptyState_parallel (n : ℕ) :
    e_data_parallel n (Result.emptyState n) := by
  constructor
  · simp [Result.emptyState]
  · intro k hk
    simp [Result.emptyState, List.getD_eq_getElem?_getD,
      List.getElem?_replicate, hk]

/-- C10: starting from a recorder built by `Result.init` (so its
processors are exactly the default expectation-storing and
state-retention ones), after any sequence of `add` calls every
observable channel holds exactly one value per recorded time
(`len(e_data[k]) = len(times)` for every key), and one further `add`
appends exactly one time entry and exactly one value to every channel. -/
theorem e_data_parallel_to_times (e_ops : List EOp) (ss : Option Bool)
    (sf : Bool) (r0 : Result) (h : Result.init e_ops ss sf = Except.ok r0)
    (samples : List (ℚ × ℚ)) (t s : ℚ) :
    ((samples.foldl (fun r ts => (r.add ts.1 ts.2).1) r0).st.e_data.length
      = e_ops.length) ∧
    (∀ k < e_ops.length,
      (((samples.foldl (fun r ts => (r.add ts.1 ts.2).1) r0).st.e_data.getD
        k []).length)
      = (samples.foldl (fun r ts => (r.add ts.1 ts.2).1) r0).st.times.length) ∧
    (((samples.foldl (fun r ts => (r.add ts.1 ts.2).1) r0).add t
        s).1.st.times.length
      = (samples.foldl (fun r ts => (r.add ts.1 ts.2).1)
          r0).st.times.length + 1) ∧
    (∀ k < e_ops.length,
      ((((samples.foldl (fun r ts => (r.add ts.1 ts.2).1) r0).add t
          s).1.st.e_data.getD k []).length)
      = (((samples.foldl (fun r ts => (r.add ts.1 ts.2).1) r0).st.e_data.getD
          k []).length) + 1) := by
  obtain ⟨hd0, hst0⟩ := init_default_shape e_ops ss sf r0 h
  have hinv0 : e_data_parallel e_ops.length r0.st := by
    rw [hst0]
    exact emptyState_parallel e_ops.length
  obtain ⟨hd, hinv⟩ := fold_add_preserves e_ops.length samples r0 hd0 hinv0
  obtain ⟨ht1, hk1, _, _⟩ := add_default_step e_ops.length _ hd t s hinv
  exact ⟨hinv.1, hinv.2, ht1, hk1⟩

/-- Witness for C10: a recorder with one callable observable, two
recorded samples, and one further `add`. -/
theorem e_data_parallel_witness :
    (Result.init [EOp.callable (fun t _ => t)] none false = Except.ok
      (Result.base [Proc.store 0 (fun t _ => t)] false
        (Result.emptyState 1))) ∧
    ((([((1 : ℚ), (5 : ℚ)), (2, 7)].foldl
        (fun r ts => (r.add ts.1 ts.2).1)
        (Result.base [Proc.store 0 (fun t _ => t)] false
          (Result.emptyState 1))).st.e_data.getD 0 []).length)
      = ([((1 : ℚ), (5 : ℚ)), (2, 7)].foldl
          (fun r ts => (r.add ts.1 ts.2).1)
          (Result.base [Proc.store 0 (fun t _ => t)] false
            (Result.emptyState 1))).st.times.length := by
  have hinit : Result.init [EOp.callable (fun t _ => t)] none false
      = Except.ok (Result.base [Proc.store 0 (fun t _ => t)] false
        (Result.emptyState 1)) := rfl
  exact ⟨hinit,
    (e_data_parallel_to_times [EOp.callable (fun t _ => t)] none false _
      hinit [((1 : ℚ), (5 : ℚ)), (2, 7)] 3 9).2.1 0 (by norm_num)⟩

/-- C7: one `add(t, state)` call on a recorder built by registering the
processors `regs` (each with its copy-requirement flag) produces exactly
one `copy` event when some registration required a copy and none
otherwise, followed by exactly one call event per registered processor,
in registration order. -/
theorem add_calls_each_processor_once (st0 : ResultState)
    (regs : List (Proc × Bool)) (t s : ℚ) :
    ((regs.foldl (fun r pb => r.add_processor pb.1 pb.2)
        (Result.base [] false st0)).add t s).2
      = (if regs.any (fun pb => pb.2) then [Ev.copy] else [])
        ++ regs.map (fun pb => Ev.call pb.1) := by
  obtain ⟨hp, hc, _⟩ := foldl_add_processor regs (Result.base [] false st0)
  simp only [Result.base] at hp hc
  simp only [Result.add, Result.base, hp, hc, runProcs_trace]
  by_cases h : regs.any (fun pb => pb.2) <;>
    simp [h, List.map_map, Function.comp]

/-! ### Machinery for C4/C5/C6: closed forms of the two aggregators

Both aggregators accumulate the same folds over the trajectory list; the
definitions below name those folds so that the streaming accumulators
and the retaining on-demand computations can each be related to them. -/

/-- Elementwise addition of two same-length value arrays. -/
def vecAdd (a b : List ℚ) : List ℚ := List.zipWith (· + ·) a b

/-- The accumulated (promoted) state sum over `t0 :: rest`. -/
def statesSum (proj : ℚ → ℚ) (t0 : Traj) (rest : List Traj) : List ℚ :=
  rest.foldl
    (fun finals tr => List.zipWith
      (fun final state => proj state + final) finals tr.states)
    (t0.states.map proj)

/-- The accumulated (promoted) final-state sum over `t0 :: rest`. -/
def finalsSum (proj : ℚ → ℚ) (t0 : Traj) (rest : List Traj) : ℚ :=
  rest.foldl (fun acc tr => acc + proj (tr.final_state.getD 0))
    (proj (t0.final_state.getD 0))

/-- The accumulated final-state sum over `t0 :: rest` as the streaming
aggregator tracks it: `none` when the first trajectory recorded no final
state (in which case later trajectories are simply skipped, mirroring
the source's truthiness check on the accumulator). -/
def finalsSumO (proj : ℚ → ℚ) (t0 : Traj) (rest : List Traj) : Option ℚ :=
  rest.foldl
    (fun acc tr => acc.map (fun a => a + proj (tr.final_state.getD 0)))
    (t0.final_state.map proj)

/-- The accumulated per-observable value sums over `t0 :: rest`. -/
def expectSums (t0 : Traj) (rest : List Traj) : List (List ℚ) :=
  rest.foldl (fun acc tr => List.zipWith vecAdd acc tr.expect) t0.expect

/-- The accumulated per-observable sums of squares over `t0 :: rest`. -/
def expectSqSums (t0 : Traj) (rest : List Traj) : List (List ℚ) :=
  rest.foldl
    (fun acc tr => List.zipWith vecAdd acc
      (tr.expect.map (fun e => e.map (fun x => x ^ 2))))
    (t0.expect.map (fun e => e.map (fun x => x ^ 2)))

/-- Two per-observable tables have the same shape: same number of keys
and same number of values per key. -/
def sameShape (a b : List (List ℚ)) : Prop :=
  a.length = b.length ∧ ∀ k, (a.getD k []).length = (b.getD k []).length

/-- The sum over trajectories of the value of key `k` at time index `j`. -/
def colSum (trajs : List Traj) (k j : ℕ) : ℚ :=
  (trajs.map (fun tr => (tr.expect.getD k []).getD j 0)).sum

/-- The sum over trajectories of the squared value of key `k` at time
index `j`. -/
def colSqSum (trajs : List Traj) (k j : ℕ) : ℚ :=
  (trajs.map (fun tr => ((tr.expect.getD k []).getD j 0) ^ 2)).sum

/-- The streaming aggregator state after folding `t0 :: done`. -/
def accState (proj : ℚ → ℚ) (c : ℕ) (t0 : Traj) (done : List Traj) :
    MultiTrajResultAveraged :=
  { template := some t0,
    sum_states := some (statesSum proj t0 done),
    sum_last := finalsSumO proj t0 done,
    sum_expect := some (expectSums t0 done),
    sum2_expect := some (expectSqSums t0 done),
    to_dm := true, num_c_ops := c, num := done.length + 1,
    collapse := (t0 :: done).map (fun tr => tr.collapse) }

/-- `np_add` on equal-length arrays is plain elementwise addition. -/
theorem np_add_eq_vecAdd (a b : List ℚ) (h : a.length = b.length) :
    np_add a b = some (vecAdd a b) := by
  simp [np_add, h, vecAdd]

/-- A `mapO` whose steps all succeed is a plain `map`. -/
theorem mapO_eq_map (f : α → Option β) (g : α → β) :
    ∀ l : List α, (∀ x ∈ l, f x = some (g x)) →
      mapO f l = some (l.map g)
  | [], _ => rfl
  | a :: as, h => by
    rw [List.map_cons]
    simp only [mapO, h a (List.mem_cons_self a as),
      mapO_eq_map f g as (fun x hx => h x (List.mem_cons_of_mem _ hx))]

/-- `getD` past the end of the list is the default. -/
theorem getD_of_le (l : List α) (d : α) {k : ℕ} (h : l.length ≤ k) :
    l.getD k d = d := by
  simp [List.getD_eq_getElem?_getD, List.getElem?_eq_none h]

/-- `getD` of a `zipWith` at an index inside both lists. -/
theorem getD_zipWith_of_lt (f : α → β → γ) (a : List α) (b : List β)
    (da : α) (db : β) (dc : γ) {k : ℕ} (ha : k < a.length)
    (hb : k < b.length) :
    (List.zipWith f a b).getD k dc = f (a.getD k da) (b.getD k db) := by
  rw [List.getD_eq_getElem?_getD, List.getElem?_zipWith,
    List.getElem?_eq_getElem ha, List.getElem?_eq_getElem hb]
  simp [List.getD_eq_getElem?_getD, List.getElem?_eq_getElem ha,
    List.getElem?_eq_getElem hb]

/-- `sameShape` is reflexive. -/
theorem sameShape_refl (a : List (List ℚ)) : sameShape a a := ⟨rfl, fun _ => rfl⟩

/-- Squaring every value preserves the shape of a table. -/
theorem sameShape_sq (a b : List (List ℚ)) (h : sameShape a b) :
    sameShape (a.map (fun e => e.map (fun x => x ^ 2))) b := by
  obtain ⟨hl, hr⟩ := h
  constructor
  · simp [hl]
  · intro k
    by_cases hk : k < a.length
    · have : (a.map (fun e => e.map (fun x => x ^ 2))).getD k []
          = (a.getD k []).map (fun x => x ^ 2) := by
        rw [List.getD_eq_getElem?_getD, List.getD_eq_getElem?_getD,
          List.getElem?_map, List.getElem?_eq_getElem hk]
        rfl
      rw [this, List.length_map]
      exact hr k
    · rw [getD_of_le _ _ (show (a.map (fun e => e.map
          (fun x => x ^ 2))).length ≤ k by simpa using Nat.le_of_not_lt hk),
        getD_of_le _ _ (show b.length ≤ k by omega)]

/-- Elementwise addition of two tables shaped like `c` is shaped like
`c`. -/
theorem sameShape_zipWith_vecAdd (a b c : List (List ℚ))
    (ha : sameShape a c) (hb : sameShape b c) :
    sameShape (List.zipWith vecAdd a b) c := by
  obtain ⟨hal, har⟩ := ha
  obtain ⟨hbl, hbr⟩ := hb
  constructor
  · simp [List.length_zipWith, hal, hbl]
  · intro k
    by_cases hk : k < c.length
    · rw [getD_zipWith_of_lt vecAdd a b [] [] [] (by omega) (by omega)]
      simp only [vecAdd, List.length_zipWith]
      rw [har k, hbr k]
      simp
    · have h1 : (List.zipWith vecAdd a b).length ≤ k := by
        simp only [List.length_zipWith]
        omega
      rw [getD_of_le _ _ h1, getD_of_le _ _ (show c.length ≤ k by omega)]

/-- On same-shaped tables the fallible observable-sum update is plain
elementwise addition. -/
theorem addExpectSums_eq :
    ∀ (s es : List (List ℚ)), s.length = es.length →
      (∀ k, (s.getD k []).length = (es.getD k []).length) →
      addExpectSums s es = some (List.zipWith vecAdd s es)
  | [], es, _, _ => rfl
  | a :: as, [], h, _ => by simp at h
  | a :: as, e :: es, h, hrow => by
    have h0 := hrow 0
    simp only [List.getD_cons_zero] at h0
    simp only [addExpectSums, np_add_eq_vecAdd a e h0,
      addExpectSums_eq as es (by simpa using h)
        (fun k => by simpa using hrow (k + 1))]
    rfl

/-- On same-shaped tables the fallible sum-of-squares update is plain
elementwise addition of the squared values. -/
theorem addSqSums_eq :
    ∀ (s es : List (List ℚ)), s.length = es.length →
      (∀ k, (s.getD k []).length = (es.getD k []).length) →
      addSqSums s es = some (List.zipWith vecAdd s
        (es.map (fun e => e.map (fun x => x ^ 2))))
  | [], es, _, _ => rfl
  | a :: as, [], h, _ => by simp at h
  | a :: as, e :: es, h, hrow => by
    have h0 := hrow 0
    simp only [List.getD_cons_zero] at h0
    simp only [addSqSums,
      np_add_eq_vecAdd a (e.map (fun x => x ^ 2)) (by simpa using h0),
      addSqSums_eq as es (by simpa using h)
        (fun k => by simpa using hrow (k + 1))]
    rfl

/-- Accumulating same-shaped tables preserves the shape. -/
theorem foldl_vecAdd_shape (g : Traj → List (List ℚ))
    (t0exp : List (List ℚ)) :
    ∀ (done : List Traj) (acc : List (List ℚ)),
      sameShape acc t0exp → (∀ u ∈ done, sameShape (g u) t0exp) →
      sameShape
        (done.foldl (fun acc tr => List.zipWith vecAdd acc (g tr)) acc) t0exp
  | [], acc, h, _ => h
  | tr :: rest, acc, h, hd => by
    rw [List.foldl_cons]
    exact foldl_vecAdd_shape g t0exp rest _
      (sameShape_zipWith_vecAdd _ _ _ h (hd tr (List.mem_cons_self tr rest)))
      (fun u hu => hd u (List.mem_cons_of_mem _ hu))

/-- The accumulated observable sums have the template's shape. -/
theorem expectSums_shape (t0 : Traj) (done : List Traj)
    (hd : ∀ u ∈ done, sameShape u.expect t0.expect) :
    sameShape (expectSums t0 done) t0.expect := by
  unfold expectSums
  exact foldl_vecAdd_shape (fun tr => tr.expect) t0.expect done t0.expect
    (sameShape_refl _) hd

/-- The accumulated sums of squares have the template's shape. -/
theorem expectSqSums_shape (t0 : Traj) (done : List Traj)
    (hd : ∀ u ∈ done, sameShape u.expect t0.expect) :
    sameShape (expectSqSums t0 done) t0.expect := by
  unfold expectSqSums
  exact foldl_vecAdd_shape
    (fun tr => tr.expect.map (fun e => e.map (fun x => x ^ 2)))
    t0.expect done (t0.expect.map (fun e => e.map (fun x => x ^ 2)))
    (sameShape_sq _ _ (sameShape_refl _))
    (fun u hu => sameShape_sq _ _ (hd u hu))

/-- The optional final-state sum is present exactly when the first
trajectory recorded a final state. -/
theorem finalsSumO_isSome (proj : ℚ → ℚ) (t0 : Traj) (done : List Traj) :
    (finalsSumO proj t0 done).isSome = t0.final_state.isSome := by
  unfold finalsSumO
  have haux : ∀ (l : List Traj) (acc : Option ℚ),
      (l.foldl (fun acc tr =>
        acc.map (fun a => a + proj (tr.final_state.getD 0))) acc).isSome
      = acc.isSome := by
    intro l
    induction l with
    | nil => intro acc; rfl
    | cons tr rest ih =>
      intro acc
      rw [List.foldl_cons, ih]
      cases acc <;> rfl
  rw [haux]
  cases t0.final_state <;> rfl

/-- One more trajectory in the optional final-state sum. -/
theorem finalsSumO_append (proj : ℚ → ℚ) (t0 : Traj) (done : List Traj)
    (tr : Traj) :
    finalsSumO proj t0 (done ++ [tr])
      = (finalsSumO proj t0 done).map
          (fun a => a + proj (tr.final_state.getD 0)) := by
  unfold finalsSumO
  rw [List.foldl_append, List.foldl_cons, List.foldl_nil]

/-- The first streaming `add` seeds the closed form. -/
theorem first_add_accState (proj : ℚ → ℚ) (c : ℕ) (t0 : Traj) :
    (MultiTrajResultAveraged.init c).add proj t0
      = Except.ok (accState proj c t0 []) := by
  rw [MultiTrajResultAveraged.add,
    if_pos (show (MultiTrajResultAveraged.init c).num = 0 from rfl)]
  unfold accState statesSum finalsSumO expectSums expectSqSums
  simp only [List.foldl_nil, MultiTrajResultAveraged.init]
  cases hf : t0.final_state <;> cases hs : t0.states <;> simp [List.isEmpty]

/-- One further streaming `add` of a well-shaped trajectory advances the
closed form by one trajectory.  The new trajectory needs a final state
only when the accumulator is tracking one. -/
theorem add_accState (proj : ℚ → ℚ) (c : ℕ) (t0 : Traj) (done : List Traj)
    (tr : Traj)
    (himp : t0.final_state.isSome → tr.final_state.isSome)
    (hsh : sameShape tr.expect t0.expect)
    (hshd : ∀ u ∈ done, sameShape u.expect t0.expect) :
    (accState proj c t0 done).add proj tr
      = Except.ok (accState proj c t0 (done ++ [tr])) := by
  obtain ⟨hsl1, hsr1⟩ := expectSums_shape t0 done hshd
  obtain ⟨hsl2, hsr2⟩ := expectSqSums_shape t0 done hshd
  obtain ⟨htl, htr⟩ := hsh
  have hstates : statesSum proj t0 (done ++ [tr])
      = List.zipWith (fun final state => proj state + final)
        (statesSum proj t0 done) tr.states := by
    unfold statesSum
    rw [List.foldl_append, List.foldl_cons, List.foldl_nil]
  have hexp : expectSums t0 (done ++ [tr])
      = List.zipWith vecAdd (expectSums t0 done) tr.expect := by
    unfold expectSums
    rw [List.foldl_append, List.foldl_cons, List.foldl_nil]
  have hsq : expectSqSums t0 (done ++ [tr])
      = List.zipWith vecAdd (expectSqSums t0 done)
        (tr.expect.map (fun e => e.map (fun x => x ^ 2))) := by
    unfold expectSqSums
    rw [List.foldl_append, List.foldl_cons, List.foldl_nil]
  have hnum : ¬ (accState proj c t0 done).num = 0 := by
    simp [accState]
  have hifstates : (if (statesSum proj t0 done).isEmpty
        then statesSum proj t0 done
        else List.zipWith (fun accu state => proj state + accu)
          (statesSum proj t0 done) tr.states)
      = List.zipWith (fun final state => proj state + final)
        (statesSum proj t0 done) tr.states := by
    cases h : statesSum proj t0 done <;> simp [List.isEmpty]
  rw [MultiTrajResultAveraged.add, if_neg hnum]
  simp only [accState, Option.map_some', if_true]
  rw [hifstates]
  cases hso : finalsSumO proj t0 done with
  | none =>
    have hnone : finalsSumO proj t0 (done ++ [tr]) = none := by
      rw [finalsSumO_append, hso]
      rfl
    simp only [MultiTrajResultAveraged.addExpectPart]
    by_cases hce : (expectSums t0 done).isEmpty
    · have he0 : expectSums t0 done = [] := List.isEmpty_iff.mp hce
      have hlen0 : t0.expect.length = 0 := by
        rw [← hsl1, he0]
        rfl
      have ht0 : tr.expect = [] := List.length_eq_zero.mp (by omega)
      have hs20 : expectSqSums t0 done = [] :=
        List.length_eq_zero.mp (by rw [hsl2]; omega)
      rw [if_pos hce]
      simp [MultiTrajResultAveraged.finishAdd, hstates, hexp, hsq, hnone,
        he0, ht0, hs20, List.map_append]
    · rw [if_neg hce]
      rw [addExpectSums_eq (expectSums t0 done) tr.expect
        (hsl1.trans htl.symm) (fun k => (hsr1 k).trans (htr k).symm)]
      dsimp only
      rw [addSqSums_eq (expectSqSums t0 done) tr.expect
        (hsl2.trans htl.symm) (fun k => (hsr2 k).trans (htr k).symm)]
      dsimp only
      simp [MultiTrajResultAveraged.finishAdd, hstates, hexp, hsq, hnone,
        List.map_append]
  | some a =>
    have hfin_tr : tr.final_state.isSome := by
      apply himp
      have h := finalsSumO_isSome proj t0 done
      rw [hso] at h
      exact h.symm
    obtain ⟨f, hf⟩ := Option.isSome_iff_exists.mp hfin_tr
    have hsome : finalsSumO proj t0 (done ++ [tr]) = some (a + proj f) := by
      rw [finalsSumO_append, hso, hf]
      rfl
    rw [hf]
    simp only [MultiTrajResultAveraged.addExpectPart]
    by_cases hce : (expectSums t0 done).isEmpty
    · have he0 : expectSums t0 done = [] := List.isEmpty_iff.mp hce
      have hlen0 : t0.expect.length = 0 := by
        rw [← hsl1, he0]
        rfl
      have ht0 : tr.expect = [] := List.length_eq_zero.mp (by omega)
      have hs20 : expectSqSums t0 done = [] :=
        List.length_eq_zero.mp (by rw [hsl2]; omega)
      rw [if_pos hce]
      simp [MultiTrajResultAveraged.finishAdd, hstates, hexp, hsq, hsome,
        he0, ht0, hs20, List.map_append]
    · rw [if_neg hce]
      rw [addExpectSums_eq (expectSums t0 done) tr.expect
        (hsl1.trans htl.symm) (fun k => (hsr1 k).trans (htr k).symm)]
      dsimp only
      rw [addSqSums_eq (expectSqSums t0 done) tr.expect
        (hsl2.trans htl.symm) (fun k => (hsr2 k).trans (htr k).symm)]
      dsimp only
      simp [MultiTrajResultAveraged.finishAdd, hstates, hexp, hsq, hsome,
        List.map_append]

/-- Folding well-shaped trajectories keeps the streaming aggregator in
closed form. -/
theorem addAll_accState (proj : ℚ → ℚ) (c : ℕ) (t0 : Traj) :
    ∀ (rest done : List Traj),
      (t0.final_state.isSome → ∀ u ∈ rest, (u : Traj).final_state.isSome) →
      (∀ u ∈ rest, sameShape (u : Traj).expect t0.expect) →
      (∀ u ∈ done, sameShape u.expect t0.expect) →
      (accState proj c t0 done).addAll proj rest
        = Except.ok (accState proj c t0 (done ++ rest))
  | [], done, _, _, _ => by simp [MultiTrajResultAveraged.addAll]
  | tr :: rest, done, hf, hr, hd => by
    simp only [MultiTrajResultAveraged.addAll]
    rw [add_accState proj c t0 done tr
      (fun h => hf h tr (List.mem_cons_self tr rest))
      (hr tr (List.mem_cons_self tr rest)) hd]
    have hrec := addAll_accState proj c t0 rest (done ++ [tr])
      (fun h u hu => hf h u (List.mem_cons_of_mem _ hu))
      (fun u hu => hr u (List.mem_cons_of_mem _ hu))
      (fun u hu => by
        rcases List.mem_append.mp hu with h | h
        · exact hd u h
        · rcases List.mem_singleton.mp h with rfl
          exact hr _ (List.mem_cons_self _ rest))
    dsimp only
    rw [hrec, List.append_assoc]
    rfl

/-- The streaming aggregator's closed form after folding `t0 :: rest`
from a fresh aggregator: the fold succeeds, and every accumulator equals
the corresponding shared fold. -/
theorem addAll_closed (proj : ℚ → ℚ) (c : ℕ) (t0 : Traj) (rest : List Traj)
    (hfin : t0.final_state.isSome → ∀ u ∈ rest, (u : Traj).final_state.isSome)
    (hsh : ∀ u ∈ rest, sameShape (u : Traj).expect t0.expect) :
    (MultiTrajResultAveraged.init c).addAll proj (t0 :: rest)
      = Except.ok (accState proj c t0 rest) := by
  simp only [MultiTrajResultAveraged.addAll]
  rw [first_add_accState proj c t0]
  have := addAll_accState proj c t0 rest [] hfin hsh (by simp)
  simpa using this

/-- A run of retaining `add` calls just collects the trajectories. -/
theorem foldl_mtr_add (c : ℕ) (trajs : List Traj) :
    trajs.foldl MultiTrajResult.add (MultiTrajResult.init c)
      = { trajectories := trajs, to_dm := true, num_c_ops := c } := by
  have haux : ∀ (l : List Traj) (m : MultiTrajResult),
      l.foldl MultiTrajResult.add m
        = { m with trajectories := m.trajectories ++ l } := by
    intro l
    induction l with
    | nil => intro m; simp
    | cons tr rest ih =>
      intro m
      rw [List.foldl_cons, ih]
      simp [MultiTrajResult.add]
  rw [haux]
  simp [MultiTrajResult.init]

/-- Retaining `average_states` in terms of the shared state-sum fold. -/
theorem mtr_average_states (proj : ℚ → ℚ) (c : ℕ) (t0 : Traj)
    (rest : List Traj) :
    MultiTrajResult.average_states proj
        { trajectories := t0 :: rest, to_dm := true, num_c_ops := c }
      = some ((statesSum proj t0 rest).map
          (fun final => final / ((rest.length + 1 : ℕ) : ℚ))) := by
  unfold MultiTrajResult.average_states statesSum
  simp

/-- Pulling the seed out of the summed final-state fold. -/
theorem foldl_add_finals (proj : ℚ → ℚ) (t0 : Traj) (rest : List Traj) :
    (((t0 :: rest).map (fun tr => tr.final_state.getD 0)).map proj).foldl
        (· + ·) 0
      = finalsSum proj t0 rest := by
  rw [List.map_map, List.map_cons, List.foldl_cons, zero_add]
  unfold finalsSum
  rw [List.foldl_map]
  rfl

/-- Retaining `average_final_state` in terms of the shared fold. -/
theorem mtr_average_final (proj : ℚ → ℚ) (c : ℕ) (t0 : Traj)
    (rest : List Traj)
    (hfin : ∀ u ∈ t0 :: rest, (u : Traj).final_state.isSome) :
    MultiTrajResult.average_final_state proj
        { trajectories := t0 :: rest, to_dm := true, num_c_ops := c }
      = some (finalsSum proj t0 rest / ((rest.length + 1 : ℕ) : ℚ)) := by
  unfold MultiTrajResult.average_final_state
  rw [show ({ trajectories := t0 :: rest, to_dm := true, num_c_ops := c }
      : MultiTrajResult).trajectories = t0 :: rest from rfl]
  rw [mapO_eq_map (fun tr => tr.final_state)
    (fun tr => tr.final_state.getD 0) (t0 :: rest) (fun u hu => by
      obtain ⟨v, hv⟩ := Option.isSome_iff_exists.mp (hfin u hu)
      show u.final_state = some (u.final_state.getD 0)
      rw [hv]
      rfl)]
  simp only [if_true]
  rw [foldl_add_finals]
  simp

/-- `getD` of a mapped list inside the range. -/
theorem getD_map_of_lt (g : α → β) (l : List α) {k : ℕ} (hk : k < l.length)
    (d : β) (d' : α) :
    (l.map g).getD k d = g (l.getD k d') := by
  rw [List.getD_eq_getElem?_getD, List.getElem?_map,
    List.getElem?_eq_getElem hk, List.getD_eq_getElem?_getD,
    List.getElem?_eq_getElem hk]
  rfl

/-- Every trajectory of a same-shaped batch has row `k`, so fetching the
rows succeeds. -/
theorem mapO_rows (t0 : Traj) (rest : List Traj) (k : ℕ)
    (hk : k < t0.expect.length)
    (hsh : ∀ u ∈ rest, (u : Traj).expect.length = t0.expect.length) :
    mapO (fun tr => tr.expect[k]?) (t0 :: rest)
      = some ((t0 :: rest).map (fun tr => tr.expect.getD k [])) := by
  apply mapO_eq_map
  intro u hu
  have hlen : k < u.expect.length := by
    rcases List.mem_cons.mp hu with rfl | h
    · exact hk
    · rw [hsh u h]
      exact hk
  show u.expect[k]? = some (u.expect.getD k [])
  rw [List.getElem?_eq_getElem hlen, List.getD_eq_getElem?_getD,
    List.getElem?_eq_getElem hlen]
  rfl

/-- `np.mean` over a stack of equal-length rows. -/
theorem np_stack_mean_rows (r0 : List ℚ) (rs : List (List ℚ))
    (h : ∀ r ∈ rs, (r : List ℚ).length = r0.length) :
    np_stack_mean (r0 :: rs) = some ((List.range r0.length).map
      (fun j => np_mean (column (r0 :: rs) j))) := by
  have hcond : rs.all (fun x => x.length = r0.length) = true := by
    simp only [List.all_eq_true, decide_eq_true_eq]
    exact h
  simp only [np_stack_mean, hcond, if_true]

/-- `np.std` over a stack of equal-length rows. -/
theorem np_stack_std_rows (r0 : List ℚ) (rs : List (List ℚ))
    (h : ∀ r ∈ rs, (r : List ℚ).length = r0.length) :
    np_stack_std (r0 :: rs) = some ((List.range r0.length).map
      (fun j => np_std (column (r0 :: rs) j))) := by
  have hcond : rs.all (fun x => x.length = r0.length) = true := by
    simp only [List.all_eq_true, decide_eq_true_eq]
    exact h
  simp only [np_stack_std, hcond, if_true]

/-- Retaining `average_expect` in closed form: for each key, the
column-wise mean of the stacked rows. -/
theorem mtr_average_expect (c : ℕ) (t0 : Traj) (rest : List Traj)
    (hsh : ∀ u ∈ rest, sameShape (u : Traj).expect t0.expect) :
    MultiTrajResult.average_expect
        { trajectories := t0 :: rest, to_dm := true, num_c_ops := c }
      = some ((List.range t0.expect.length).map (fun k =>
          (List.range ((t0.expect.getD k []).length)).map
            (fun j => np_mean (column ((t0 :: rest).map
              (fun tr => tr.expect.getD k [])) j)))) := by
  unfold MultiTrajResult.average_expect
  apply mapO_eq_map
  intro k hk
  have hk' : k < t0.expect.length := List.mem_range.mp hk
  rw [mapO_rows t0 rest k hk' (fun u hu => (hsh u hu).1)]
  show np_stack_mean ((t0 :: rest).map (fun tr => tr.expect.getD k [])) = _
  rw [List.map_cons, np_stack_mean_rows _ _ (fun r hr => by
    obtain ⟨u, hu, hru⟩ := List.mem_map.mp hr
    rw [← hru]
    exact (hsh u hu).2 k)]

/-- Retaining `std_expect` in closed form: for each key, the column-wise
population standard deviation of the stacked rows. -/
theorem mtr_std_expect (c : ℕ) (t0 : Traj) (rest : List Traj)
    (hsh : ∀ u ∈ rest, sameShape (u : Traj).expect t0.expect) :
    MultiTrajResult.std_expect
        { trajectories := t0 :: rest, to_dm := true, num_c_ops := c }
      = some ((List.range t0.expect.length).map (fun k =>
          (List.range ((t0.expect.getD k []).length)).map
            (fun j => np_std (column ((t0 :: rest).map
              (fun tr => tr.expect.getD k [])) j)))) := by
  unfold MultiTrajResult.std_expect
  apply mapO_eq_map
  intro k hk
  have hk' : k < t0.expect.length := List.mem_range.mp hk
  rw [mapO_rows t0 rest k hk' (fun u hu => (hsh u hu).1)]
  show np_stack_std ((t0 :: rest).map (fun tr => tr.expect.getD k [])) = _
  rw [List.map_cons, np_stack_std_rows _ _ (fun r hr => by
    obtain ⟨u, hu, hru⟩ := List.mem_map.mp hr
    rw [← hru]
    exact (hsh u hu).2 k)]

/-- The column mean of the stacked rows is the trajectory sum divided by
the trajectory count. -/
theorem np_mean_column (trajs : List Traj) (k j : ℕ) :
    np_mean (column (trajs.map (fun tr => tr.expect.getD k [])) j)
      = colSum trajs k j / ((trajs.length : ℕ) : ℚ) := by
  unfold np_mean column colSum
  rw [List.map_map]
  simp [Function.comp_def]

/-- Expanding the sum of squared deviations around an arbitrary centre. -/
theorem sum_sq_dev (c : ℚ) : ∀ xs : List ℚ,
    (xs.map (fun x => (x - c) ^ 2)).sum
      = (xs.map (fun x => x ^ 2)).sum - 2 * c * xs.sum
        + (xs.length : ℚ) * c ^ 2
  | [] => by simp
  | x :: xs => by
    simp only [List.map_cons, List.sum_cons, sum_sq_dev c xs,
      List.length_cons]
    push_cast
    ring

/-- The population variance as mean square minus squared mean (the
algebraic identity behind comparing `np.std` with the streaming
`sqrt(E[X²]-E[X]²)` formula). -/
theorem np_var_eq (xs : List ℚ) (h : xs ≠ []) :
    np_var xs = (xs.map (fun x => x ^ 2)).sum / ((xs.length : ℕ) : ℚ)
      - (xs.sum / ((xs.length : ℕ) : ℚ)) ^ 2 := by
  have hn : ((xs.length : ℕ) : ℚ) ≠ 0 :=
    Nat.cast_ne_zero.mpr (fun h0 => h (List.length_eq_zero.mp h0))
  unfold np_var np_mean
  rw [sum_sq_dev]
  field_simp
  ring

/-- The column variance of the stacked rows in terms of the trajectory
sums and sums of squares. -/
theorem np_var_column (trajs : List Traj) (k j : ℕ) (h : trajs ≠ []) :
    np_var (column (trajs.map (fun tr => tr.expect.getD k [])) j)
      = colSqSum trajs k j / ((trajs.length : ℕ) : ℚ)
        - (colSum trajs k j / ((trajs.length : ℕ) : ℚ)) ^ 2 := by
  rw [np_var_eq _ (by simp [column, h])]
  unfold column colSum colSqSum
  simp [List.map_map, Function.comp_def]

/-- Pointwise value of the accumulated observable sums: the sum over all
trajectories of the value at key `k`, time `j`. -/
theorem expectSums_getD (t0 : Traj) (k j : ℕ) (hk : k < t0.expect.length)
    (hj : j < (t0.expect.getD k []).length) :
    ∀ done : List Traj, (∀ u ∈ done, sameShape u.expect t0.expect) →
      ((expectSums t0 done).getD k []).getD j 0 = colSum (t0 :: done) k j := by
  intro done
  induction done using List.reverseRecOn with
  | nil =>
    intro _
    simp [expectSums, colSum]
  | append_singleton l tr ih =>
    intro hd
    have hdl : ∀ u ∈ l, sameShape u.expect t0.expect :=
      fun u hu => hd u (List.mem_append_left _ hu)
    have hdt : sameShape tr.expect t0.expect :=
      hd tr (List.mem_append_right _ (List.mem_singleton_self tr))
    have hexp : expectSums t0 (l ++ [tr])
        = List.zipWith vecAdd (expectSums t0 l) tr.expect := by
      unfold expectSums
      rw [List.foldl_append, List.foldl_cons, List.foldl_nil]
    obtain ⟨hsl, hsr⟩ := expectSums_shape t0 l hdl
    rw [hexp, getD_zipWith_of_lt vecAdd _ _ [] [] [] (by omega)
      (by rw [hdt.1]; omega)]
    unfold vecAdd
    rw [getD_zipWith_of_lt (· + ·) _ _ 0 0 0 (by rw [hsr k]; omega)
      (by rw [hdt.2 k]; omega)]
    rw [ih hdl]
    unfold colSum
    rw [show (t0 :: (l ++ [tr])) = (t0 :: l) ++ [tr] from rfl,
      List.map_append, List.sum_append]
    simp

/-- Pointwise value of the accumulated sums of squares: the sum over all
trajectories of the squared value at key `k`, time `j`. -/
theorem expectSqSums_getD (t0 : Traj) (k j : ℕ) (hk : k < t0.expect.length)
    (hj : j < (t0.expect.getD k []).length) :
    ∀ done : List Traj, (∀ u ∈ done, sameShape u.expect t0.expect) →
      ((expectSqSums t0 done).getD k []).getD j 0
        = colSqSum (t0 :: done) k j := by
  intro done
  induction done using List.reverseRecOn with
  | nil =>
    intro _
    unfold expectSqSums colSqSum
    rw [List.foldl_nil, getD_map_of_lt _ _ hk [] [],
      getD_map_of_lt _ _ hj 0 0]
    simp
  | append_singleton l tr ih =>
    intro hd
    have hdl : ∀ u ∈ l, sameShape u.expect t0.expect :=
      fun u hu => hd u (List.mem_append_left _ hu)
    have hdt : sameShape tr.expect t0.expect :=
      hd tr (List.mem_append_right _ (List.mem_singleton_self tr))
    have hsq : expectSqSums t0 (l ++ [tr])
        = List.zipWith vecAdd (expectSqSums t0 l)
          (tr.expect.map (fun e => e.map (fun x => x ^ 2))) := by
      unfold expectSqSums
      rw [List.foldl_append, List.foldl_cons, List.foldl_nil]
    obtain ⟨hsl, hsr⟩ := expectSqSums_shape t0 l hdl
    rw [hsq, getD_zipWith_of_lt vecAdd _ _ [] [] [] (by omega)
      (by rw [List.length_map, hdt.1]; omega)]
    rw [getD_map_of_lt _ _ (by rw [hdt.1]; omega) [] []]
    unfold vecAdd
    rw [getD_zipWith_of_lt (· + ·) _ _ 0 0 0 (by rw [hsr k]; omega)
      (by rw [List.length_map, hdt.2 k]; omega)]
    rw [getD_map_of_lt _ _ (by rw [hdt.2 k]; omega) 0 0]
    rw [ih hdl]
    unfold colSqSum
    rw [show (t0 :: (l ++ [tr])) = (t0 :: l) ++ [tr] from rfl,
      List.map_append, List.sum_append]
    simp

/-- `getD` agrees with `getElem` inside the range. -/
theorem getD_eq_getElem' (l : List α) (d : α) {k : ℕ} (h : k < l.length) :
    l.getD k d = l[k] := by
  rw [List.getD_eq_getElem?_getD, List.getElem?_eq_getElem h]
  rfl

/-- `getD` of a mapped range evaluates the function. -/
theorem getD_range_map (g : ℕ → α) (n k : ℕ) (hk : k < n) (d : α) :
    ((List.range n).map g).getD k d = g k := by
  rw [getD_map_of_lt g (List.range n) (by simpa using hk) d 0,
    getD_eq_getElem' (List.range n) 0 (by simpa using hk)]
  rw [List.getElem_range]

/-- C5: for `n ≥ 1` trajectories whose value sequences for each
observable key live on a common time grid, `average_expect` after adding
all of them equals the pointwise mean `(Σ xᵢ)/n` at every key `k` and
time index `j`, in both the retaining and the streaming realization. -/
theorem average_expect_is_pointwise_mean (proj : ℚ → ℚ) (c : ℕ) (t0 : Traj)
    (rest : List Traj)
    (hfin : t0.final_state.isSome → ∀ u ∈ rest, (u : Traj).final_state.isSome)
    (hsh : ∀ u ∈ rest, sameShape (u : Traj).expect t0.expect)
    (k j : ℕ) (hk : k < t0.expect.length)
    (hj : j < (t0.expect.getD k []).length) :
    (∃ A, ((t0 :: rest).foldl MultiTrajResult.add
        (MultiTrajResult.init c)).average_expect = some A ∧
      (A.getD k []).getD j 0
        = colSum (t0 :: rest) k j / ((rest.length + 1 : ℕ) : ℚ)) ∧
    (∃ mA B, (MultiTrajResultAveraged.init c).addAll proj (t0 :: rest)
        = Except.ok mA ∧ mA.average_expect = some B ∧
      (B.getD k []).getD j 0
        = colSum (t0 :: rest) k j / ((rest.length + 1 : ℕ) : ℚ)) := by
  constructor
  · rw [foldl_mtr_add, mtr_average_expect c t0 rest hsh]
    refine ⟨_, rfl, ?_⟩
    rw [getD_range_map _ _ _ hk, getD_range_map _ _ _ hj,
      np_mean_column (t0 :: rest) k j]
    simp
  · obtain ⟨hsl, hsr⟩ := expectSums_shape t0 rest hsh
    refine ⟨accState proj c t0 rest,
      (expectSums t0 rest).map (fun v => v.map
        (fun x => x / (((rest.length + 1 : ℕ)) : ℚ))),
      addAll_closed proj c t0 rest hfin hsh, ?_, ?_⟩
    · simp [MultiTrajResultAveraged.average_expect, accState]
    · rw [getD_map_of_lt _ _ (by omega) [] [],
        getD_map_of_lt _ _ (by rw [hsr k]; omega) 0 0,
        expectSums_getD t0 k j hk hj rest hsh]

/-- Witness for C5, at the two concrete trajectories with values
`[1,2,3]` and `[3,2,1]`, key `0`, time index `1`. -/
theorem average_expect_is_pointwise_mean_witness :
    (∃ A, ((trE1 :: [trE2]).foldl MultiTrajResult.add
        (MultiTrajResult.init 0)).average_expect = some A ∧
      (A.getD 0 []).getD 1 0
        = colSum (trE1 :: [trE2]) 0 1 / ((([trE2].length + 1 : ℕ)) : ℚ)) ∧
    (∃ mA B, (MultiTrajResultAveraged.init 0).addAll projSq (trE1 :: [trE2])
        = Except.ok mA ∧ mA.average_expect = some B ∧
      (B.getD 0 []).getD 1 0
        = colSum (trE1 :: [trE2]) 0 1 / ((([trE2].length + 1 : ℕ)) : ℚ)) :=
  average_expect_is_pointwise_mean projSq 0 trE1 [trE2]
    (by intro h; simp [trE1] at h)
    (by
      intro u hu
      simp only [List.mem_singleton] at hu
      subst hu
      refine ⟨by simp [trE1, trE2], fun k => ?_⟩
      cases k <;> simp [trE1, trE2])
    0 1 (by simp [trE1]) (by simp [trE1])

/-- The streaming aggregator after folding `trE1` and `trE2`. -/
def mAvgE : MultiTrajResultAveraged :=
  { template := some trE1, sum_states := some [], sum_last := none,
    sum_expect := some [[4, 4, 4]], sum2_expect := some [[10, 8, 10]],
    to_dm := true, num_c_ops := 0, num := 2, collapse := [[], []] }

/-- C6: after adding `n ≥ 1` same-grid trajectories, `std_expect` at
every key and time index is the population standard deviation
`sqrt(E[X²] − E[X]²)` (denominator `n`, not `n − 1`), in both the
retaining and the streaming realization; in particular the two
trajectories with values `[1,2,3]` and `[3,2,1]` give `[1,0,1]` in both
realizations. -/
theorem std_expect_is_population_std (proj : ℚ → ℚ) (c : ℕ) (t0 : Traj)
    (rest : List Traj)
    (hfin : t0.final_state.isSome → ∀ u ∈ rest, (u : Traj).final_state.isSome)
    (hsh : ∀ u ∈ rest, sameShape (u : Traj).expect t0.expect)
    (k j : ℕ) (hk : k < t0.expect.length)
    (hj : j < (t0.expect.getD k []).length) :
    (∃ S, ((t0 :: rest).foldl MultiTrajResult.add
        (MultiTrajResult.init c)).std_expect = some S ∧
      (S.getD k []).getD j 0
        = Real.sqrt (((colSqSum (t0 :: rest) k j
            / ((rest.length + 1 : ℕ) : ℚ)
          - (colSum (t0 :: rest) k j / ((rest.length + 1 : ℕ) : ℚ)) ^ 2
          : ℚ)) : ℝ)) ∧
    (∃ mA S', (MultiTrajResultAveraged.init c).addAll proj (t0 :: rest)
        = Except.ok mA ∧ mA.std_expect = some S' ∧
      (S'.getD k []).getD j 0
        = Real.sqrt (((colSqSum (t0 :: rest) k j
            / ((rest.length + 1 : ℕ) : ℚ)
          - (colSum (t0 :: rest) k j / ((rest.length + 1 : ℕ) : ℚ)) ^ 2
          : ℚ)) : ℝ)) ∧
    mRetE.std_expect = some [[(1 : ℝ), 0, 1]] ∧
    ((MultiTrajResultAveraged.init 0).addAll projSq [trE1, trE2]
        = Except.ok mAvgE ∧
      mAvgE.std_expect = some [[(1 : ℝ), 0, 1]]) := by
  refine ⟨?_, ?_, ?_, ?_, ?_⟩
  · rw [foldl_mtr_add, mtr_std_expect c t0 rest hsh]
    refine ⟨_, rfl, ?_⟩
    rw [getD_range_map _ _ _ hk, getD_range_map _ _ _ hj]
    unfold np_std
    rw [np_var_column (t0 :: rest) k j (by simp)]
    simp
  · obtain ⟨hsl1, hsr1⟩ := expectSums_shape t0 rest hsh
    obtain ⟨hsl2, hsr2⟩ := expectSqSums_shape t0 rest hsh
    refine ⟨accState proj c t0 rest,
      (List.range (expectSums t0 rest).length).map (fun i =>
        List.zipWith (fun x2 x => Real.sqrt
          (((x2 / (((rest.length + 1 : ℕ)) : ℚ)
            - (x / (((rest.length + 1 : ℕ)) : ℚ)) ^ 2 : ℚ)) : ℝ))
          ((expectSqSums t0 rest).getD i [])
          ((expectSums t0 rest).getD i [])),
      addAll_closed proj c t0 rest hfin hsh, ?_, ?_⟩
    · simp [MultiTrajResultAveraged.std_expect, accState]
    · rw [getD_range_map _ _ _ (by omega) []]
      rw [getD_zipWith_of_lt _ _ _ 0 0 0 (by rw [hsr2 k]; omega)
        (by rw [hsr1 k]; omega)]
      rw [expectSums_getD t0 k j hk hj rest hsh,
        expectSqSums_getD t0 k j hk hj rest hsh]
  · have h1 : np_var [1, 3] = 1 := by norm_num [np_var, np_mean]
    have h2 : np_var [2, 2] = 0 := by norm_num [np_var, np_mean]
    have h3 : np_var [3, 1] = 1 := by norm_num [np_var, np_mean]
    simp [mRetE, MultiTrajResult.std_expect, MultiTrajResult.add,
      MultiTrajResult.init, trE1, trE2, mapO, np_stack_std, np_std,
      column, List.range_succ, h1, h2, h3]
  · norm_num [MultiTrajResultAveraged.addAll, MultiTrajResultAveraged.add,
      MultiTrajResultAveraged.addExpectPart, MultiTrajResultAveraged.finishAdd,
      MultiTrajResultAveraged.init, addExpectSums, addSqSums, np_add,
      trE1, trE2, mAvgE, projSq, List.isEmpty]
  · have e2 : ((8 : ℝ) / 2 - (4 / 2) ^ 2) = 0 := by norm_num
    simp [MultiTrajResultAveraged.std_expect, mAvgE, List.range_succ]
    norm_num [e2, Real.sqrt_zero]

/-- Witness for C6, at the two concrete trajectories with values
`[1,2,3]` and `[3,2,1]`, key `0`, time index `0`. -/
theorem std_expect_is_population_std_witness :
    (∃ S, ((trE1 :: [trE2]).foldl MultiTrajResult.add
        (MultiTrajResult.init 0)).std_expect = some S ∧
      (S.getD 0 []).getD 0 0
        = Real.sqrt (((colSqSum (trE1 :: [trE2]) 0 0
            / (([trE2].length + 1 : ℕ) : ℚ)
          - (colSum (trE1 :: [trE2]) 0 0
              / (([trE2].length + 1 : ℕ) : ℚ)) ^ 2 : ℚ)) : ℝ)) ∧
    (∃ mA S', (MultiTrajResultAveraged.init 0).addAll projSq
        (trE1 :: [trE2]) = Except.ok mA ∧ mA.std_expect = some S' ∧
      (S'.getD 0 []).getD 0 0
        = Real.sqrt (((colSqSum (trE1 :: [trE2]) 0 0
            / (([trE2].length + 1 : ℕ) : ℚ)
          - (colSum (trE1 :: [trE2]) 0 0
              / (([trE2].length + 1 : ℕ) : ℚ)) ^ 2 : ℚ)) : ℝ)) ∧
    mRetE.std_expect = some [[(1 : ℝ), 0, 1]] ∧
    ((MultiTrajResultAveraged.init 0).addAll projSq [trE1, trE2]
        = Except.ok mAvgE ∧
      mAvgE.std_expect = some [[(1 : ℝ), 0, 1]]) :=
  std_expect_is_population_std projSq 0 trE1 [trE2]
    (by intro h; simp [trE1] at h)
    (by
      intro u hu
      simp only [List.mem_singleton] at hu
      subst hu
      refine ⟨by simp [trE1, trE2], fun k => ?_⟩
      cases k <;> simp [trE1, trE2])
    0 0 (by simp [trE1]) (by simp [trE1])

/-- When every trajectory has a final state the optional final-state sum
is the total final-state sum. -/
theorem finalsSumO_all_some (proj : ℚ → ℚ) (t0 : Traj) (rest : List Traj)
    (h : ∀ u ∈ t0 :: rest, (u : Traj).final_state.isSome) :
    finalsSumO proj t0 rest = some (finalsSum proj t0 rest) := by
  induction rest using List.reverseRecOn with
  | nil =>
    obtain ⟨f, hf⟩ := Option.isSome_iff_exists.mp
      (h t0 (List.mem_cons_self t0 []))
    unfold finalsSumO finalsSum
    rw [hf]
    rfl
  | append_singleton l tr ih =>
    have hl : ∀ u ∈ t0 :: l, (u : Traj).final_state.isSome := by
      intro u hu
      rcases List.mem_cons.mp hu with rfl | hu'
      · exact h u (List.mem_cons_self u _)
      · exact h u (List.mem_cons_of_mem _ (List.mem_append_left _ hu'))
    rw [finalsSumO_append, ih hl]
    unfold finalsSum
    rw [List.foldl_append, List.foldl_cons, List.foldl_nil]
    rfl

/-- A map over a list as a map over its index range. -/
theorem map_eq_range_map (g : List ℚ → α) (l : List (List ℚ)) :
    l.map g = (List.range l.length).map (fun k => g (l.getD k [])) := by
  apply List.ext_getElem
  · simp
  · intro k h1 h2
    simp only [List.getElem_map, List.getElem_range]
    congr 1
    exact (getD_eq_getElem' l [] (by simpa using h1)).symm

/-- A map over a value list as a map over its index range. -/
theorem map_eq_range_map_q (g : ℚ → α) (v : List ℚ) :
    v.map g = (List.range v.length).map (fun j => g (v.getD j 0)) := by
  apply List.ext_getElem
  · simp
  · intro j h1 h2
    simp only [List.getElem_map, List.getElem_range]
    congr 1
    exact (getD_eq_getElem' v 0 (by simpa using h1)).symm

/-- A zip of two equal-length value lists as a map over the index
range. -/
theorem zipWith_eq_range_map (f : ℚ → ℚ → α) (a b : List ℚ)
    (hab : a.length = b.length) :
    List.zipWith f a b
      = (List.range a.length).map (fun j => f (a.getD j 0) (b.getD j 0)) := by
  apply List.ext_getElem
  · simp [List.length_zipWith, hab]
  · intro j h1 h2
    simp only [List.length_zipWith, hab, Nat.min_self] at h1
    rw [List.getElem_zipWith, List.getElem_map, List.getElem_range]
    congr 1
    · exact (getD_eq_getElem' a 0 (by omega)).symm
    · exact (getD_eq_getElem' b 0 (by omega)).symm

/-- The streaming mean table equals the retaining column-mean table. -/
theorem avg_expect_tables_eq (t0 : Traj) (rest : List Traj)
    (hsh : ∀ u ∈ rest, sameShape (u : Traj).expect t0.expect) :
    (expectSums t0 rest).map (fun v => v.map
        (fun x => x / ((rest.length + 1 : ℕ) : ℚ)))
      = (List.range t0.expect.length).map (fun k =>
          (List.range ((t0.expect.getD k []).length)).map
            (fun j => np_mean (column ((t0 :: rest).map
              (fun tr => tr.expect.getD k [])) j))) := by
  obtain ⟨hsl, hsr⟩ := expectSums_shape t0 rest hsh
  rw [map_eq_range_map, hsl]
  apply List.map_congr_left
  intro k hkmem
  have hk : k < t0.expect.length := List.mem_range.mp hkmem
  rw [map_eq_range_map_q, hsr k]
  apply List.map_congr_left
  intro j hjmem
  have hj : j < (t0.expect.getD k []).length := List.mem_range.mp hjmem
  rw [expectSums_getD t0 k j hk hj rest hsh, np_mean_column]
  simp

/-- The streaming standard-deviation table equals the retaining
column-`np.std` table. -/
theorem std_expect_tables_eq (t0 : Traj) (rest : List Traj)
    (hsh : ∀ u ∈ rest, sameShape (u : Traj).expect t0.expect) :
    (List.range (expectSums t0 rest).length).map (fun i =>
        List.zipWith (fun x2 x => Real.sqrt
          (((x2 / ((rest.length + 1 : ℕ) : ℚ)
            - (x / ((rest.length + 1 : ℕ) : ℚ)) ^ 2 : ℚ)) : ℝ))
          ((expectSqSums t0 rest).getD i [])
          ((expectSums t0 rest).getD i []))
      = (List.range t0.expect.length).map (fun k =>
          (List.range ((t0.expect.getD k []).length)).map
            (fun j => np_std (column ((t0 :: rest).map
              (fun tr => tr.expect.getD k [])) j))) := by
  obtain ⟨hsl1, hsr1⟩ := expectSums_shape t0 rest hsh
  obtain ⟨hsl2, hsr2⟩ := expectSqSums_shape t0 rest hsh
  rw [hsl1]
  apply List.map_congr_left
  intro k hkmem
  have hk : k < t0.expect.length := List.mem_range.mp hkmem
  rw [zipWith_eq_range_map _ _ _ (by rw [hsr2 k, hsr1 k]), hsr2 k]
  apply List.map_congr_left
  intro j hjmem
  have hj : j < (t0.expect.getD k []).length := List.mem_range.mp hjmem
  rw [expectSums_getD t0 k j hk hj rest hsh,
    expectSqSums_getD t0 k j hk hj rest hsh]
  unfold np_std
  rw [np_var_column (t0 :: rest) k j (by simp)]
  simp

/-- C4: given the identical sequence of well-shaped trajectories (a
common observable-key set and value-sequence lengths; each later
trajectory recording a final state whenever the first one did), the
streaming realization succeeds and produces exactly the retaining
realization's `average_states`, `average_final_state`, `average_expect`
and `std_expect` (the latter two for every observable key), under exact
arithmetic. -/
theorem streaming_refines_retaining (proj : ℚ → ℚ) (c : ℕ) (t0 : Traj)
    (rest : List Traj)
    (hfin : t0.final_state.isSome → ∀ u ∈ rest, (u : Traj).final_state.isSome)
    (hsh : ∀ u ∈ rest, sameShape (u : Traj).expect t0.expect) :
    ∃ mA, (MultiTrajResultAveraged.init c).addAll proj (t0 :: rest)
        = Except.ok mA ∧
      mA.average_states
        = ((t0 :: rest).foldl MultiTrajResult.add
            (MultiTrajResult.init c)).average_states proj ∧
      mA.average_final_state
        = ((t0 :: rest).foldl MultiTrajResult.add
            (MultiTrajResult.init c)).average_final_state proj ∧
      mA.average_expect
        = ((t0 :: rest).foldl MultiTrajResult.add
            (MultiTrajResult.init c)).average_expect ∧
      mA.std_expect
        = ((t0 :: rest).foldl MultiTrajResult.add
            (MultiTrajResult.init c)).std_expect := by
  refine ⟨accState proj c t0 rest, addAll_closed proj c t0 rest hfin hsh,
    ?_, ?_, ?_, ?_⟩
  · rw [foldl_mtr_add, mtr_average_states]
    simp [MultiTrajResultAveraged.average_states, accState]
  · rw [foldl_mtr_add]
    cases hts : t0.final_state with
    | none =>
      have hiss := finalsSumO_isSome proj t0 rest
      rw [hts] at hiss
      have hnone : finalsSumO proj t0 rest = none :=
        Option.not_isSome_iff_eq_none.mp (by rw [hiss]; simp)
      have hret : MultiTrajResult.average_final_state proj
          { trajectories := t0 :: rest, to_dm := true, num_c_ops := c }
          = none := by
        unfold MultiTrajResult.average_final_state
        simp [mapO, hts]
      rw [hret]
      simp [MultiTrajResultAveraged.average_final_state, accState, hnone]
    | some f =>
      have hall : ∀ u ∈ t0 :: rest, (u : Traj).final_state.isSome := by
        intro u hu
        rcases List.mem_cons.mp hu with rfl | hu'
        · rw [hts]
          rfl
        · exact hfin (by rw [hts]; rfl) u hu'
      rw [mtr_average_final proj c t0 rest hall]
      simp [MultiTrajResultAveraged.average_final_state, accState,
        finalsSumO_all_some proj t0 rest hall]
  · rw [foldl_mtr_add, mtr_average_expect c t0 rest hsh,
      ← avg_expect_tables_eq t0 rest hsh]
    simp [MultiTrajResultAveraged.average_expect, accState]
  · rw [foldl_mtr_add, mtr_std_expect c t0 rest hsh,
      ← std_expect_tables_eq t0 rest hsh]
    simp [MultiTrajResultAveraged.std_expect, accState]

/-- Trajectory with states, a final state and observable values
`[1,2,3]`. -/
def trF1 : Traj :=
  { times := [0, 1, 2], states := [1, 2], final_state := some 2,
    expect := [[1, 2, 3]], collapse := [(1, 0)] }

/-- Trajectory with states, a final state and observable values
`[3,2,1]`. -/
def trF2 : Traj :=
  { times := [0, 1, 2], states := [3, 4], final_state := some 4,
    expect := [[3, 2, 1]], collapse := [] }

/-- Witness for C4, at two concrete well-shaped trajectories with
states, final states and one observable channel. -/
theorem streaming_refines_retaining_witness :
    ∃ mA, (MultiTrajResultAveraged.init 0).addAll projSq (trF1 :: [trF2])
        = Except.ok mA ∧
      mA.average_states
        = ((trF1 :: [trF2]).foldl MultiTrajResult.add
            (MultiTrajResult.init 0)).average_states projSq ∧
      mA.average_final_state
        = ((trF1 :: [trF2]).foldl MultiTrajResult.add
            (MultiTrajResult.init 0)).average_final_state projSq ∧
      mA.average_expect
        = ((trF1 :: [trF2]).foldl MultiTrajResult.add
            (MultiTrajResult.init 0)).average_expect ∧
      mA.std_expect
        = ((trF1 :: [trF2]).foldl MultiTrajResult.add
            (MultiTrajResult.init 0)).std_expect :=
  streaming_refines_retaining projSq 0 trF1 [trF2]
    (by
      intro _ u hu
      simp only [List.mem_singleton] at hu
      subst hu
      simp [trF2])
    (by
      intro u hu
      simp only [List.mem_singleton] at hu
      subst hu
      refine ⟨by simp [trF1, trF2], fun k => ?_⟩
      cases k <;> simp [trF1, trF2])
